import Mathlib

/-!
Verification development for the Impala coordinator frontend
(`be/src/service/impala-server.cc`): a shallow embedding in Lean 4 of the
session registry, the query registry and lifecycle driver, the fragment
executor endpoint, the membership and catalog subscription callbacks, the
expiration sweepers, the query archive, the proxy-user authorization check
and the query-option (de)serialisation, together with theorems that settle
the specification claims about them.

External collaborators (frontend planner, coordinator, stream manager,
loggers, metrics) appear as oracles: their results are parameters of the
embedded functions, never modelled behaviour.
-/

set_option autoImplicit false

namespace Impala

/-! ## Common types: status values, identifiers -/

/-- Thrift status codes that appear in the embedded code paths
(`common/status.cc`, `Status(TStatusCode::INTERNAL_ERROR, ...)`). -/
inductive TStatusCode where
  | GENERAL
  | INTERNAL_ERROR
deriving DecidableEq, Repr

/-- Shallow embedding of `impala::Status` (`common/status.cc`): either OK
(`error_detail_ == NULL`) or an error carrying a code and a message. The
plain `Status(msg)` constructor of the C++ maps to `Status.err`. -/
inductive Status where
  | ok
  | error (code : TStatusCode) (msg : String)
deriving DecidableEq, Repr

instance : Inhabited Status := ⟨Status.ok⟩

/-- Construction `Status(const string& error_msg)` from `status.cc`. -/
def Status.err (msg : String) : Status := Status.error TStatusCode.GENERAL msg

/-- Matches `Status::ok()` of the C++ (`error_detail_ == NULL`). -/
def Status.isOk : Status → Bool
  | Status.ok => true
  | Status.error _ _ => false

/-- 128-bit `TUniqueId` values, modelled as naturals (only identity and the
`std::map` ordering of ids matter to the embedded code). -/
abbrev TUniqueId := Nat

/-- A `TNetworkAddress`, modelled by its printed `host:port` form, which is
all the embedded code observes of it. -/
abbrev TNetworkAddress := String

/-! ## String utilities used by impala-server.cc

`boost::split(..., is_any_of(sep), token_compress_on)` splits on runs of the
separator; an empty token survives only at either end of the string.
`boost::trim` strips whitespace at both ends. `std::string::find` returns
the first index of a character. These are embedded below on `List Char`. -/

/-- Plain split of a character list at every occurrence of `sep`
(no compression); the result is always non-empty. -/
def splitCharList (sep : Char) : List Char → List (List Char)
  | [] => [[]]
  | c :: cs =>
    match splitCharList sep cs with
    | [] => [[]]
    | t :: ts => if c = sep then [] :: t :: ts else (c :: t) :: ts

/-- Drop empty tokens except in last position (the head of the full token
list is handled by the caller): this reproduces `token_compress_on`, under
which only a leading or trailing separator run yields an empty token. -/
def dropInteriorEmpty : List (List Char) → List (List Char)
  | [] => []
  | [t] => [t]
  | t :: rest => if t.isEmpty then dropInteriorEmpty rest else t :: dropInteriorEmpty rest

/-- Embedding of `boost::split(result, s, is_any_of(sep), token_compress_on)`. -/
def splitCompress (sep : Char) (s : String) : List String :=
  match splitCharList sep s.toList with
  | [] => []
  | t :: ts => String.mk t :: (dropInteriorEmpty ts).map String.mk

/-- Embedding of `boost::trim` (strip whitespace at both ends). -/
def trimStr (s : String) : String :=
  String.mk (((s.toList.dropWhile Char.isWhitespace).reverse.dropWhile
      Char.isWhitespace).reverse)

/-- Embedding of `boost::iequals`: case-insensitive string equality. -/
def iequals (a b : String) : Bool :=
  a.toList.map Char.toLower == b.toList.map Char.toLower

/-- First index of `c` in `s`, or `none` for `std::string::npos`. -/
def strFind (c : Char) (s : String) : Option Nat :=
  s.toList.findIdx? (fun x => x = c)

/-- The `min` of two `std::string::find` results, where `npos` (`none`) is
the largest value. -/
def minIdx : Option Nat → Option Nat → Option Nat
  | none, b => b
  | some i, none => some i
  | some i, some j => some (min i j)

/-- Embedding of `s.substr(0, n)`. -/
def strTake (s : String) (n : Nat) : String := String.mk (s.toList.take n)

/-- Embedding of `s.substr(n)`. -/
def strDrop (s : String) (n : Nat) : String := String.mk (s.toList.drop n)

/-! ## Association-list helpers (for the `std::map` / `unordered_map`
registries; keys are unique in every use below) -/

/-- Erase every binding of key `k` (on unique-key maps this is `map.erase`). -/
def eraseKey {κ ν : Type} [DecidableEq κ] (k : κ) (m : List (κ × ν)) : List (κ × ν) :=
  m.filter (fun p => ¬ p.1 = k)

/-- Map-style `m[k] = v`: replace the binding if present, else append it. -/
def setKey {κ ν : Type} [DecidableEq κ] (k : κ) (v : ν) (m : List (κ × ν)) :
    List (κ × ν) :=
  if (m.lookup k).isSome then
    m.map (fun p => if p.1 = k then (k, v) else p)
  else m ++ [(k, v)]

/-- `map.insert(make_pair(k, v))`: inserts only when the key is absent. -/
def insertIfAbsent {κ ν : Type} [DecidableEq κ] (k : κ) (v : ν) (m : List (κ × ν)) :
    List (κ × ν) :=
  if (m.lookup k).isSome then m else m ++ [(k, v)]

/-! ## 4.K Proxy-user authorization
(`ImpalaServer::ImpalaServer` lines 241-266, `AuthorizeProxyUser` lines
1323-1356) -/

/-- The `authorized_proxy_user_config_` map: proxy principal to the set of
users it may delegate for (the set is carried as a list; only membership is
observed). -/
abbrev ProxyUserMap := List (String × List String)

/-- Parse one `proxy=u1,u2,...` entry of `--authorized_proxy_user_config`.
Returns `none` for the `exit(1)` path (no `=` in the entry). -/
def parseProxyEntry (config : String) : Option (String × List String) :=
  match strFind '=' config with
  | none => none
  | some pos =>
    let proxyUser := strTake config pos
    let configStr := strDrop config (pos + 1)
    let parsedAllowedUsers := splitCompress ',' configStr
    some (proxyUser, parsedAllowedUsers)

/-- Embedding of the proxy-user configuration parsing in the `ImpalaServer`
constructor: split the flag on `;`, then each entry at its first `=`; the
allowed-user list is split on `,`. Tokens are not trimmed. `none` models the
`exit(1)` taken on a malformed entry. -/
def parseProxyUserConfig (flag : String) : Option ProxyUserMap :=
  if flag = "" then some [] else
    (splitCompress ';' flag).foldlM
      (fun acc config =>
        match parseProxyEntry config with
        | none => none
        | some (k, vs) => some (insertIfAbsent k vs acc))
      []

/-- Short form of a connected principal, exactly as `AuthorizeProxyUser`
computes it: the prefix before the first `/` or `@`, except that when
neither occurs, or the first occurrence is at index 0, the whole principal
is used. -/
def shortUserOf (user : String) : String :=
  match minIdx (strFind '/' user) (strFind '@' user) with
  | none => user
  | some endIdx => if endIdx = 0 then user else strTake user endIdx

/-- Embedding of `ImpalaServer::AuthorizeProxyUser`. Note the C++ checks
`user.empty()` twice (the doAs branch is dead code); this is reproduced. -/
def authorizeProxyUser (config : ProxyUserMap) (user doAsUser : String) : Status :=
  if user = "" then
    Status.err "Unable to delegate using empty proxy username."
  else if user = "" then
    Status.err "Unable to delegate using empty doAs username."
  else
    let errorMsg := "User \x27" ++ user ++ "\x27 is not authorized to delegate to \x27"
        ++ doAsUser ++ "\x27."
    if config.length = 0 then
      Status.err (errorMsg ++ " User delegation is disabled.")
    else
      match config.lookup (shortUserOf user) with
      | some allowed =>
        if allowed.any (fun u => u = "*" || u = doAsUser) then Status.ok
        else Status.err errorMsg
      | none => Status.err errorMsg

/-- What the spec's words say the short form is: "the substring up to the
first `/` or `@`, or the whole principal if neither appears" (no special
case for a separator at index 0). Kept for comparison with `shortUserOf`. -/
def shortUserSpec (user : String) : String :=
  match minIdx (strFind '/' user) (strFind '@' user) with
  | none => user
  | some endIdx => strTake user endIdx

/-- The proxy map obtained from the flag value `"root=alice,bob; svc=*"`;
note the untrimmed `" svc"` key produced by the constructor's parsing. -/
def exampleProxyCfg : ProxyUserMap := [("root", ["alice", "bob"]), (" svc", ["*"])]

/-! ## 4.I Catalog update barrier
(`ImpalaServer::ProcessCatalogUpdateResult` lines 1483-1537) -/

/-- The shared `catalog_update_info_` triple guarded by `catalog_version_lock_`. -/
structure CatalogUpdateInfo where
  catalog_version : Int
  catalog_topic_version : Int
  catalog_service_id : TUniqueId
deriving DecidableEq, Repr

/-- One observable snapshot of the state protected by `catalog_version_lock_`:
the update info plus `min_subscriber_catalog_topic_version_`. -/
structure CatalogVersionState where
  info : CatalogUpdateInfo
  min_subscriber_catalog_topic_version : Int
deriving DecidableEq, Repr

/-- The fields of `TCatalogUpdateResult` read by `ProcessCatalogUpdateResult`;
the `__isset` bits of the optional objects are carried as booleans. -/
structure TCatalogUpdateResult where
  version : Int
  catalog_service_id : TUniqueId
  has_updated_catalog_object : Bool
  has_removed_catalog_object : Bool
deriving DecidableEq, Repr

/-- A `while (!p(state)) cv.wait()` loop over the successive states observed
under the mutex: returns the first observation satisfying `p` together with
the observations that follow it, or `none` when the loop never exits. -/
def waitOn (p : CatalogVersionState → Bool) :
    List CatalogVersionState → Option (CatalogVersionState × List CatalogVersionState)
  | [] => none
  | s :: rest => if p s then some (s, rest) else waitOn p rest

/-- Exit condition of the first wait loop of `ProcessCatalogUpdateResult`:
the negation of `catalog_version < min_req && service_id == target`. -/
def versionBarrierDone (minReqCatalogVersion : Int) (catalogServiceId : TUniqueId)
    (s : CatalogVersionState) : Bool :=
  !(decide (s.info.catalog_version < minReqCatalogVersion) &&
    decide (s.info.catalog_service_id = catalogServiceId))

/-- Exit condition of the second (all-subscribers) wait loop. -/
def subscriberBarrierDone (minReqSubscriberTopicVersion : Int)
    (catalogServiceId : TUniqueId) (s : CatalogVersionState) : Bool :=
  !(decide (s.min_subscriber_catalog_topic_version < minReqSubscriberTopicVersion) &&
    decide (s.info.catalog_service_id = catalogServiceId))

/-- Embedding of `ImpalaServer::ProcessCatalogUpdateResult`. `obs` is the
sequence of states of the shared catalog-version data seen under
`catalog_version_lock_`, the head being the state when the lock is first
acquired and each further element one condition-variable wakeup; `none`
models a call that never returns. `updateCacheStatus` is the oracle result
of the external `Frontend::UpdateCatalogCache` call of the fast path.
The returned pair carries the status and, for the waiting path, the
observation at which the first (version) barrier was crossed. -/
def processCatalogUpdateResult (r : TCatalogUpdateResult)
    (waitForAllSubscribers : Bool) (updateCacheStatus : Status)
    (obs : List CatalogVersionState) :
    Option (Status × Option CatalogVersionState) :=
  if (r.has_updated_catalog_object || r.has_removed_catalog_object) &&
      !waitForAllSubscribers then
    some (updateCacheStatus, none)
  else
    match waitOn (versionBarrierDone r.version r.catalog_service_id) obs with
    | none => none
    | some (s1, rest) =>
      if !waitForAllSubscribers then some (Status.ok, some s1)
      else
        match waitOn
            (subscriberBarrierDone s1.info.catalog_topic_version r.catalog_service_id)
            (s1 :: rest) with
        | none => none
        | some _ => some (Status.ok, some s1)

/-! ## Data model: sessions, queries, archive, the server registries
(§3 of the spec; `impala-server.h` state members used by the embedded
functions of `impala-server.cc`) -/

/-- The fields of one `QueryExecState` that the embedded coordinator code
reads or writes. The profile, result cursor and coordinator internals live
in `query-exec-state.cc` (external to the sources); only their projections
used by `impala-server.cc` appear: the serialised profile string, the
unique hosts of the schedule, and whether a `Coordinator` exists. -/
structure QueryExecState where
  query_id : TUniqueId
  session_id : TUniqueId
  sql_stmt : String
  query_status : Status
  query_timeout_s : Int
  last_active : Int
  is_active : Bool
  cancelled : Bool
  done : Bool
  has_coord : Bool
  unique_hosts : List TNetworkAddress
  encoded_profile_str : String
deriving DecidableEq, Repr, Inhabited

/-- The fields of `SessionState` used by the embedded code. -/
structure SessionState where
  closed : Bool
  expired : Bool
  ref_count : Int
  last_accessed_ms : Int
  inflight_queries : List TUniqueId
  connected_user : String
deriving DecidableEq, Repr, Inhabited

/-- The archive snapshot `QueryStateRecord`; of its many copied fields the
claims observe the id, statement, status and encoded profile. -/
structure QueryStateRecord where
  id : TUniqueId
  stmt : String
  query_status : Status
  encoded_profile_str : String
deriving DecidableEq, Repr, Inhabited

/-- `CancellationWork` (impala-server.cc lines 172-204): a work item of the
cancellation thread pool. `unregister = false` is the cancel kind. -/
structure CancellationWork where
  query_id : TUniqueId
  cause : Status
  unregister : Bool
deriving DecidableEq, Repr

/-- The mutable registries of `ImpalaServer` touched by the embedded
operations: query map, session map, query locations, expiration queue
(a multimap sorted by expected-expiry timestamp), query log and its index. -/
structure ServerState where
  query_exec_state_map : List (TUniqueId × QueryExecState)
  session_state_map : List (TUniqueId × SessionState)
  query_locations : List (TNetworkAddress × List TUniqueId)
  queries_by_timestamp : List (Int × TUniqueId)
  query_log : List QueryStateRecord
  query_log_index : List (TUniqueId × QueryStateRecord)
deriving DecidableEq, Repr

/-! ## 4.C / 4.J Query lifecycle: register, cancel, archive, unregister
(`RegisterQuery` lines 632-674, `UnregisterQuery` lines 676-729,
`CancelInternal` lines 745-754, `ArchiveQuery` lines 494-529) -/

/-- Modelled from the spec: `QueryExecState::Cancel` lives in
`query-exec-state.cc`, which is not among the sources. Per §4.C the call
"sets the query's status to the cause (first writer wins)" and signals the
coordinator; no registry state is touched. -/
def execStateCancel (es : QueryExecState) (cause : Option Status) : QueryExecState :=
  { es with
    cancelled := true,
    query_status :=
      match cause with
      | some c => if es.query_status.isOk then c else es.query_status
      | none => es.query_status }

/-- Embedding of `ImpalaServer::CancelInternal`: look the query up (taking
its lock), fail for an unknown handle, otherwise cancel the exec state. -/
def cancelInternal (st : ServerState) (qid : TUniqueId) (cause : Option Status) :
    Status × ServerState :=
  match st.query_exec_state_map.lookup qid with
  | none => (Status.err "Invalid or unknown query handle", st)
  | some es =>
    (Status.ok,
      { st with query_exec_state_map :=
          setKey qid (execStateCancel es cause) st.query_exec_state_map })

/-- Timeout combination of `RegisterQuery` (lines 657-663) and
`ExpireQueries` (lines 1808-1814): `min` of the global flag and the
per-query option when both are positive, else their `max`. -/
def computeTimeoutS (idle_query_timeout query_timeout_s : Int) : Int :=
  if 0 < idle_query_timeout ∧ 0 < query_timeout_s then
    min idle_query_timeout query_timeout_s
  else
    max idle_query_timeout query_timeout_s

/-- `std::multimap::insert`: place the entry after all entries with a key
not larger than its own. -/
def insertByTimestamp (e : Int × TUniqueId) :
    List (Int × TUniqueId) → List (Int × TUniqueId)
  | [] => [e]
  | x :: xs => if x.1 ≤ e.1 then x :: insertByTimestamp e xs else e :: x :: xs

/-- Insert `qid` into the in-flight set of session `sid` (an
`unordered_set`, so duplicates are not added). -/
def addInflight (smap : List (TUniqueId × SessionState)) (sid qid : TUniqueId) :
    List (TUniqueId × SessionState) :=
  smap.map (fun p =>
    if p.1 = sid then
      let fl := if qid ∈ p.2.inflight_queries then p.2.inflight_queries
        else p.2.inflight_queries ++ [qid]
      (p.1, { p.2 with inflight_queries := fl })
    else p)

/-- Drop `qid` from a session's in-flight set
(`session->inflight_queries.erase(query_id)`). -/
def sessionEraseQ (qid : TUniqueId) (s : SessionState) : SessionState :=
  { s with inflight_queries := s.inflight_queries.filter (fun q => ¬ q = qid) }

/-- Remove `qid` from the in-flight set of session `sid`. -/
def eraseInflight (smap : List (TUniqueId × SessionState)) (sid qid : TUniqueId) :
    List (TUniqueId × SessionState) :=
  smap.map (fun p => if p.1 = sid then (p.1, sessionEraseQ qid p.2) else p)

/-- Embedding of `ImpalaServer::RegisterQuery`. The session is the one the
exec state holds (`exec_state->session()`); a session that has been removed
from the map was closed, so the lookup miss takes the same branch as
`session_state->closed`. On success the query is inserted into the global
map and the session's in-flight set, and — when the combined timeout is
positive — into the expiration queue at `now + 1000 * timeout`. -/
def registerQuery (idle_query_timeout now : Int) (st : ServerState)
    (execState : QueryExecState) : Status × ServerState :=
  let sid := execState.session_id
  match st.session_state_map.lookup sid with
  | none => (Status.err "Session has been closed, ignoring query.", st)
  | some session =>
    if session.closed then
      (Status.err "Session has been closed, ignoring query.", st)
    else
      let qid := execState.query_id
      if (st.query_exec_state_map.lookup qid).isSome then
        (Status.error TStatusCode.INTERNAL_ERROR
          ("query id " ++ toString qid ++ " already exists"), st)
      else
        let st1 := { st with
          session_state_map := addInflight st.session_state_map sid qid,
          query_exec_state_map := st.query_exec_state_map ++ [(qid, execState)] }
        let timeoutS := computeTimeoutS idle_query_timeout execState.query_timeout_s
        if 0 < timeoutS then
          let q2 := insertByTimestamp (now + 1000 * timeoutS, qid) st1.queries_by_timestamp
          (Status.ok, { st1 with queries_by_timestamp := q2 })
        else
          (Status.ok, st1)

/-- The snapshot taken by `QueryStateRecord::QueryStateRecord` (lines
1634-1669), restricted to the observed fields. -/
def mkQueryStateRecord (q : QueryExecState) : QueryStateRecord :=
  ⟨q.query_id, q.sql_stmt, q.query_status, q.encoded_profile_str⟩

/-- Embedding of `ImpalaServer::ArchiveQuery`: nothing happens when
`--query_log_size` is 0; otherwise the record is prepended to the log and
its id indexed; when the flag exceeds -1 and the grown log exceeds it, the
oldest (back) record is evicted and its id erased from the index. The
profile-log file append is external I/O and not modelled. -/
def archiveQuery (query_log_size : Int) (st : ServerState) (q : QueryExecState) :
    ServerState :=
  if query_log_size = 0 then st
  else
    let record := mkQueryStateRecord q
    let log1 := record :: st.query_log
    let index1 := setKey q.query_id record st.query_log_index
    if query_log_size > -1 ∧ query_log_size < (log1.length : Int) then
      { st with
        query_log := log1.dropLast,
        query_log_index := eraseKey (log1.getLastD default).id index1 }
    else
      { st with query_log := log1, query_log_index := index1 }

/-- Remove `qid` from the location entry of every host of `hosts` that is
present in the map (the `UnregisterQuery` pruning loop, lines 711-725). -/
def pruneQueryLocations (locs : List (TNetworkAddress × List TUniqueId))
    (hosts : List TNetworkAddress) (qid : TUniqueId) :
    List (TNetworkAddress × List TUniqueId) :=
  locs.map (fun p =>
    if p.1 ∈ hosts then (p.1, p.2.filter (fun q => ¬ q = qid)) else p)

/-- Embedding of `ImpalaServer::UnregisterQuery`: cancel first, then erase
from the query map (returning false for an unknown id), run `Done()`, drop
the id from the owning session's in-flight set, prune `query_locations_`
when a coordinator existed, and archive. Audit logging and the ExecSummary
profile string are external. -/
def unregisterQuery (query_log_size : Int) (st : ServerState) (qid : TUniqueId)
    (cause : Option Status) : Bool × ServerState :=
  let st1 := (cancelInternal st qid cause).2
  match st1.query_exec_state_map.lookup qid with
  | none => (false, st1)
  | some es =>
    let st2 := { st1 with
      query_exec_state_map := eraseKey qid st1.query_exec_state_map }
    let es2 := { es with done := true }
    let st3 := { st2 with
      session_state_map := eraseInflight st2.session_state_map es2.session_id qid }
    let newLocs :=
      if es2.has_coord ∧ es2.unique_hosts ≠ [] then
        pruneQueryLocations st3.query_locations es2.unique_hosts qid
      else st3.query_locations
    let st4 := { st3 with query_locations := newLocs }
    (true, archiveQuery query_log_size st4 es2)

/-! ## 4.G Query expiration sweep (`ImpalaServer::ExpireQueries`,
lines 1772-1856): one pass over `queries_by_timestamp_` -/

/-- Number of queue entries already due (timestamp at most `now`); the
termination measure of the sweep, which strictly shrinks on every step. -/
def countDue (now : Int) (l : List (Int × TUniqueId)) : Nat :=
  (l.filter (fun e => e.1 ≤ now)).length

theorem countDue_insertByTimestamp (now : Int) (e : Int × TUniqueId)
    (h : now < e.1) : ∀ l, countDue now (insertByTimestamp e l) = countDue now l := by
  intro l
  induction l with
  | nil => simp [insertByTimestamp, countDue, not_le.mpr h]
  | cons x xs ih =>
    by_cases hx : x.1 ≤ e.1
    · simp only [insertByTimestamp, if_pos hx]
      by_cases hxn : x.1 ≤ now
      · simp [countDue, hxn] at ih ⊢; omega
      · simp [countDue, hxn] at ih ⊢; omega
    · simp only [insertByTimestamp, if_neg hx]
      simp [countDue, not_le.mpr h]

/-- The message of the inactivity cancellation (`Substitute("Query $0
expired due to client inactivity (timeout is $1)", ...)`); the
pretty-printed duration is abstracted to the raw seconds value. -/
def expireErrMsg (qid : TUniqueId) (timeoutS : Int) : String :=
  "Query " ++ toString qid ++ " expired due to client inactivity (timeout is "
    ++ toString timeoutS ++ ")"

/-- One pass of the `ExpireQueries` loop body over the expiration queue:
stop at the first entry in the future; drop entries whose query is gone;
re-insert entries whose true expiration moved forward; enqueue a
cancel-kind work item for expired inactive queries; step over active ones.
Returns the queue after the pass and the work items offered to the
cancellation pool. -/
def expireQueriesPass (idle_query_timeout now : Int)
    (qmap : List (TUniqueId × QueryExecState)) :
    (queue : List (Int × TUniqueId)) →
    List (Int × TUniqueId) × List CancellationWork
  | [] => ([], [])
  | (ts, qid) :: rest =>
    if h1 : now < ts then ((ts, qid) :: rest, [])
    else
      match qmap.lookup qid with
      | none => expireQueriesPass idle_query_timeout now qmap rest
      | some qs =>
        let timeoutS := computeTimeoutS idle_query_timeout qs.query_timeout_s
        let expiration := qs.last_active + timeoutS * 1000
        if h2 : now < expiration then
          if expiration = ts then ((ts, qid) :: rest, [])
          else
            expireQueriesPass idle_query_timeout now qmap
              (insertByTimestamp (expiration, qid) rest)
        else if !qs.is_active then
          let r := expireQueriesPass idle_query_timeout now qmap rest
          (r.1, ⟨qid, Status.err (expireErrMsg qid timeoutS), false⟩ :: r.2)
        else
          let r := expireQueriesPass idle_query_timeout now qmap rest
          ((ts, qid) :: r.1, r.2)
termination_by queue => countDue now queue
decreasing_by
  all_goals first
    | (simp [countDue, not_lt.mp h1]; done)
    | (have he := countDue_insertByTimestamp now
          (qs.last_active + computeTimeoutS idle_query_timeout qs.query_timeout_s * 1000, qid)
          h2 rest
       simp only [countDue] at he ⊢
       rw [he]
       have hts : ts ≤ now := not_lt.mp h1
       simp [List.filter_cons, hts])

/-! ## Theorems for C1 and C5 -/

theorem waitOn_eq_some {p : CatalogVersionState → Bool} :
    ∀ {obs : List CatalogVersionState} {s : CatalogVersionState}
      {rest : List CatalogVersionState},
      waitOn p obs = some (s, rest) → s ∈ obs ∧ p s = true := by
  intro obs
  induction obs with
  | nil => intro s rest h; simp [waitOn] at h
  | cons a tl ih =>
    intro s rest h
    by_cases hp : p a = true
    · simp [waitOn, hp] at h
      exact ⟨by simp [h.1], h.1 ▸ hp⟩
    · simp [waitOn, hp] at h
      rcases ih h with ⟨hmem, hps⟩
      exact ⟨List.mem_cons_of_mem _ hmem, hps⟩

/-- C1: a call `ProcessCatalogUpdateResult(result, wait_for_all_subscribers
= true)` returns only after observing a state of `catalog_update_info_`
whose `catalog_version` is at least `result.version` while its
`catalog_service_id` equals `result.catalog_service_id`, or whose
`catalog_service_id` has changed away from it; and the returned status is
then OK. -/
theorem processCatalogUpdateResult_barrier
    (r : TCatalogUpdateResult) (ucs : Status) (obs : List CatalogVersionState)
    (res : Status × Option CatalogVersionState)
    (h : processCatalogUpdateResult r true ucs obs = some res) :
    res.1 = Status.ok ∧
    ∃ s, res.2 = some s ∧ s ∈ obs ∧
      ((r.version ≤ s.info.catalog_version ∧
          s.info.catalog_service_id = r.catalog_service_id) ∨
        s.info.catalog_service_id ≠ r.catalog_service_id) := by
  unfold processCatalogUpdateResult at h
  simp only [Bool.not_true, Bool.and_false, if_neg] at h
  · rcases hw : waitOn (versionBarrierDone r.version r.catalog_service_id) obs with
      _ | ⟨s1, rest⟩
    · rw [hw] at h; simp at h
    · rw [hw] at h
      simp only [Bool.not_true, Bool.false_eq_true, if_false] at h
      rcases hw2 : waitOn
          (subscriberBarrierDone s1.info.catalog_topic_version r.catalog_service_id)
          (s1 :: rest) with _ | pr
      · rw [hw2] at h; simp at h
      · rw [hw2] at h
        simp only [Option.some.injEq] at h
        rcases waitOn_eq_some hw with ⟨hmem, hdone⟩
        refine ⟨by rw [← h], s1, by rw [← h], hmem, ?_⟩
        unfold versionBarrierDone at hdone
        by_cases hsid : s1.info.catalog_service_id = r.catalog_service_id
        · left
          refine ⟨?_, hsid⟩
          simp [hsid] at hdone
          omega
        · right; exact hsid

/-- Concrete run for the C1 witness: the barrier first observes version 3
(too small), then version 6, at which it crosses. -/
def obsW : List CatalogVersionState :=
  [⟨⟨3, 10, 1⟩, 0⟩, ⟨⟨6, 11, 1⟩, 11⟩]

theorem processCatalogUpdateResult_barrier_witness :
    (Status.ok, some (⟨⟨6, 11, 1⟩, 11⟩ : CatalogVersionState)).1 = Status.ok ∧
    ∃ s, (Status.ok, some (⟨⟨6, 11, 1⟩, 11⟩ : CatalogVersionState)).2 = some s ∧
      s ∈ obsW ∧
      (((5 : Int) ≤ s.info.catalog_version ∧ s.info.catalog_service_id = 1) ∨
        s.info.catalog_service_id ≠ 1) :=
  processCatalogUpdateResult_barrier ⟨5, 1, false, false⟩ Status.ok obsW
    (Status.ok, some ⟨⟨6, 11, 1⟩, 11⟩) (by decide)

/-- C5 counterexample: parsing the proxy flag `"root=alice,bob; svc=*"`
stores the key `" svc"` with its leading space (tokens are not trimmed), so
`AuthorizeProxyUser("svc", "anyone")` is refused although the claim says it
is permitted; moreover for a principal starting with `@` the code keeps the
whole principal while the claim's short form is the empty prefix. -/
theorem authorizeProxyUser_counterexample :
    parseProxyUserConfig "root=alice,bob; svc=*" = some exampleProxyCfg ∧
    (authorizeProxyUser exampleProxyCfg "svc" "anyone").isOk = false ∧
    shortUserOf "@EXAMPLE" = "@EXAMPLE" ∧ shortUserSpec "@EXAMPLE" = "" := by
  refine ⟨by decide, by decide, by decide, by decide⟩

/-- C5 amended: `AuthorizeProxyUser(user, do_as_user)` permits exactly when
the code's short form of `user` — the prefix before the first `/` or `@`,
or the whole principal when neither occurs or the first occurrence is at
index 0 — is a key of the (untrimmed) proxy configuration whose value set
contains `do_as_user` or `"*"`; it errors otherwise, and always refuses on
an empty configuration or empty user. With the configuration parsed from
`"root=alice,bob; svc=*"` (whose second key is `" svc"`):
`("root@EXAMPLE", "alice")` is permitted, `("root/host@EXAMPLE", "carol")`
is refused, and `("svc", "anyone")` is refused because the stored key
retains the leading space. -/
theorem authorizeProxyUser_characterization :
    (∀ (config : ProxyUserMap) (user doAsUser : String),
      (authorizeProxyUser config user doAsUser).isOk = true ↔
        (user ≠ "" ∧ config ≠ [] ∧
          ∃ allowed, config.lookup (shortUserOf user) = some allowed ∧
            ("*" ∈ allowed ∨ doAsUser ∈ allowed))) ∧
    authorizeProxyUser exampleProxyCfg "root@EXAMPLE" "alice" = Status.ok ∧
    (authorizeProxyUser exampleProxyCfg "root/host@EXAMPLE" "carol").isOk = false ∧
    (authorizeProxyUser exampleProxyCfg "svc" "anyone").isOk = false := by
  refine ⟨?_, by decide, by decide, by decide⟩
  intro config user doAsUser
  unfold authorizeProxyUser
  by_cases hu : user = ""
  · simp [hu, Status.isOk, Status.err]
  · simp only [if_neg hu]
    by_cases hc : config.length = 0
    · simp [hc, Status.isOk, Status.err, List.length_eq_zero.mp hc]
    · have hcne : config ≠ [] := by
        intro h; exact hc (by simp [h])
      simp only [if_neg hc]
      rcases hl : config.lookup (shortUserOf user) with _ | allowed
      · simp [Status.isOk, Status.err, hl, hu, hcne]
      · by_cases ha : allowed.any (fun u => u = "*" || u = doAsUser) = true
        · simp only [ha, if_true]
          simp only [Status.isOk]
          constructor
          · intro _
            refine ⟨hu, hcne, allowed, rfl, ?_⟩
            rcases List.any_eq_true.mp ha with ⟨x, hx, hpx⟩
            rcases Bool.or_eq_true_iff.mp hpx with h1 | h2
            · left; have := of_decide_eq_true h1; rw [← this]; exact hx
            · right; have := of_decide_eq_true h2; rw [← this]; exact hx
          · intro _; trivial
        · simp only [ha, if_false]
          constructor
          · intro h
            exact absurd h (by simp [Status.isOk, Status.err])
          · rintro ⟨-, -, allowed2, hall, hmem⟩
            injection hall with hall
            subst hall
            exfalso
            apply ha
            apply List.any_eq_true.mpr
            rcases hmem with h1 | h2
            · exact ⟨"*", h1, by simp⟩
            · exact ⟨doAsUser, h2, by simp⟩

/-! ## Association-list lemmas -/

section AssocLemmas

variable {κ ν : Type} [DecidableEq κ]

theorem lookup_cons_eq (a k : κ) (b : ν) (tl : List (κ × ν)) :
    ((a, b) :: tl).lookup k = if a = k then some b else tl.lookup k := by
  rw [List.lookup_cons]
  by_cases h : a = k
  · simp [h]
  · have hb : (k == a) = false := beq_eq_false_iff_ne.mpr (fun hh => h hh.symm)
    simp [hb, if_neg h]

theorem lookup_eraseKey_self (k : κ) (m : List (κ × ν)) :
    (eraseKey k m).lookup k = none := by
  induction m with
  | nil => rfl
  | cons p tl ih =>
    obtain ⟨a, b⟩ := p
    by_cases h : a = k
    · simpa [eraseKey, List.filter_cons, h] using ih
    · have hstep : eraseKey k ((a, b) :: tl) = (a, b) :: eraseKey k tl := by
        simp [eraseKey, List.filter_cons, h]
      rw [hstep, lookup_cons_eq, if_neg h]
      exact ih

theorem lookup_map_update (k : κ) (v : ν) :
    ∀ m : List (κ × ν), (m.lookup k).isSome = true →
      (m.map (fun p => if p.1 = k then (k, v) else p)).lookup k = some v := by
  intro m
  induction m with
  | nil => intro h; simp at h
  | cons p tl ih =>
    intro h
    obtain ⟨a, b⟩ := p
    by_cases ha : a = k
    · simp [ha, lookup_cons_eq]
    · have h' : (tl.lookup k).isSome = true := by
        simpa [lookup_cons_eq, ha] using h
      simp only [List.map_cons, if_neg ha]
      simpa [lookup_cons_eq, ha] using ih h'

theorem lookup_append_single (k : κ) (v : ν) :
    ∀ m : List (κ × ν), m.lookup k = none → (m ++ [(k, v)]).lookup k = some v := by
  intro m
  induction m with
  | nil => intro _; simp [lookup_cons_eq]
  | cons p tl ih =>
    intro h
    obtain ⟨a, b⟩ := p
    by_cases ha : a = k
    · simp [lookup_cons_eq, ha] at h
    · have h' : tl.lookup k = none := by simpa [lookup_cons_eq, ha] using h
      simpa [List.cons_append, lookup_cons_eq, ha] using ih h'

theorem lookup_setKey_self (k : κ) (v : ν) (m : List (κ × ν)) :
    (setKey k v m).lookup k = some v := by
  unfold setKey
  by_cases hs : (m.lookup k).isSome = true
  · simpa [hs] using lookup_map_update k v m hs
  · have hn : m.lookup k = none := Option.not_isSome_iff_eq_none.mp (by simpa using hs)
    simpa [hs] using lookup_append_single k v m hn

theorem lookup_mem {k : κ} {v : ν} :
    ∀ {m : List (κ × ν)}, m.lookup k = some v → (k, v) ∈ m := by
  intro m
  induction m with
  | nil => intro h; simp [List.lookup] at h
  | cons p tl ih =>
    intro h
    obtain ⟨a, b⟩ := p
    by_cases hk : a = k
    · rw [lookup_cons_eq, if_pos hk] at h
      injection h with h
      rw [← hk, ← h]
      exact List.mem_cons_self _ _
    · rw [lookup_cons_eq, if_neg hk] at h
      exact List.mem_cons_of_mem _ (ih h)

end AssocLemmas

theorem lookup_eraseInflight (smap : List (TUniqueId × SessionState))
    (sid qid : TUniqueId) :
    (eraseInflight smap sid qid).lookup sid =
      (smap.lookup sid).map (sessionEraseQ qid) := by
  induction smap with
  | nil => rfl
  | cons p tl ih =>
    obtain ⟨a, s⟩ := p
    by_cases h : a = sid
    · simp [eraseInflight, h, lookup_cons_eq]
    · have hstep : eraseInflight ((a, s) :: tl) sid qid =
          (a, s) :: eraseInflight tl sid qid := by
        simp [eraseInflight, h]
      rw [hstep, lookup_cons_eq, if_neg h, lookup_cons_eq, if_neg h]
      exact ih

theorem mem_insertByTimestamp {x e : Int × TUniqueId} :
    ∀ {l : List (Int × TUniqueId)}, x ∈ insertByTimestamp e l → x = e ∨ x ∈ l := by
  intro l
  induction l with
  | nil =>
    intro h
    left
    simpa [insertByTimestamp] using h
  | cons y ys ih =>
    intro h
    by_cases hc : y.1 ≤ e.1
    · simp only [insertByTimestamp, if_pos hc, List.mem_cons] at h
      rcases h with h | h
      · right; simp [h]
      · rcases ih h with h1 | h2
        · left; exact h1
        · right; exact List.mem_cons_of_mem _ h2
    · simp only [insertByTimestamp, if_neg hc] at h
      rcases List.mem_cons.mp h with h | h
      · left; exact h
      · right; exact h

theorem archiveQuery_maps_unchanged (qls : Int) (st : ServerState)
    (q : QueryExecState) :
    (archiveQuery qls st q).query_exec_state_map = st.query_exec_state_map ∧
    (archiveQuery qls st q).session_state_map = st.session_state_map ∧
    (archiveQuery qls st q).queries_by_timestamp = st.queries_by_timestamp ∧
    (archiveQuery qls st q).query_locations = st.query_locations := by
  by_cases h0 : qls = 0
  · simp [archiveQuery, h0]
  · simp only [archiveQuery, if_neg h0]
    refine ⟨?_, ?_, ?_, ?_⟩ <;> (split <;> rfl)

/-! ## Theorems for C2, C3, C6 -/

theorem expireQueriesPass_only_queued (g now : Int)
    (qmap : List (TUniqueId × QueryExecState)) :
    ∀ queue : List (Int × TUniqueId), ∀ w ∈ (expireQueriesPass g now qmap queue).2,
      ∃ ts, (ts, w.query_id) ∈ queue := by
  intro queue
  induction queue using expireQueriesPass.induct g now qmap with
  | case1 =>
    intro w hw
    simp [expireQueriesPass] at hw
  | case2 ts qid rest h1 =>
    intro w hw
    rw [expireQueriesPass, dif_pos h1] at hw
    simp at hw
  | case3 ts qid rest h1 hnone ih =>
    intro w hw
    rw [expireQueriesPass, dif_neg h1, hnone] at hw
    rcases ih w hw with ⟨ts2, hmem⟩
    exact ⟨ts2, List.mem_cons_of_mem _ hmem⟩
  | case4 qid rest es hsome tS exp h2 h2' =>
    intro w hw
    exact absurd h2 h2'
  | case5 ts qid rest h1 es hsome tS exp h2 hne ih =>
    intro w hw
    rw [expireQueriesPass, dif_neg h1, hsome] at hw
    dsimp only at hw
    rw [dif_pos (show now < es.last_active + computeTimeoutS g es.query_timeout_s * 1000 from h2),
      if_neg (show ¬ es.last_active + computeTimeoutS g es.query_timeout_s * 1000 = ts from hne)] at hw
    rcases ih w hw with ⟨ts2, hmem⟩
    rcases mem_insertByTimestamp hmem with h | h
    · exact ⟨ts, by rw [show w.query_id = qid from congrArg Prod.snd h]; exact List.mem_cons_self _ _⟩
    · exact ⟨ts2, List.mem_cons_of_mem _ h⟩
  | case6 ts qid rest h1 es hsome tS exp h2 hact ih =>
    intro w hw
    rw [expireQueriesPass, dif_neg h1, hsome] at hw
    dsimp only at hw
    rw [dif_neg (show ¬ now < es.last_active + computeTimeoutS g es.query_timeout_s * 1000 from h2),
      if_pos hact] at hw
    rcases List.mem_cons.mp hw with hw | hw
    · exact ⟨ts, by rw [show w.query_id = qid from congrArg CancellationWork.query_id hw]; exact List.mem_cons_self _ _⟩
    · rcases ih w hw with ⟨ts2, hmem⟩
      exact ⟨ts2, List.mem_cons_of_mem _ hmem⟩
  | case7 ts qid rest h1 es hsome tS exp h2 hact ih =>
    intro w hw
    rw [expireQueriesPass, dif_neg h1, hsome] at hw
    dsimp only at hw
    rw [dif_neg (show ¬ now < es.last_active + computeTimeoutS g es.query_timeout_s * 1000 from h2),
      if_neg hact] at hw
    rcases ih w hw with ⟨ts2, hmem⟩
    exact ⟨ts2, List.mem_cons_of_mem _ hmem⟩

/-- C2: at registration the effective idle timeout is the minimum of the
global `--idle_query_timeout` and the per-query `QUERY_TIMEOUT_S` when both
are positive and their maximum otherwise; a successful registration with a
positive effective timeout files the query in the expiration queue at
`now + 1000 * timeout`, an effective timeout of 0 files nothing, and an
expiration pass only ever cancels queries that have an expiration-queue
entry — so a query with effective timeout 0 is never expired. -/
theorem registerQuery_effective_timeout (g p now : Int) (st : ServerState)
    (es : QueryExecState) (qmap : List (TUniqueId × QueryExecState))
    (queue : List (Int × TUniqueId)) :
    (computeTimeoutS g p = if 0 < g ∧ 0 < p then min g p else max g p) ∧
    ((registerQuery g now st es).1.isOk = true →
      0 < computeTimeoutS g es.query_timeout_s →
      (registerQuery g now st es).2.queries_by_timestamp =
        insertByTimestamp (now + 1000 * computeTimeoutS g es.query_timeout_s, es.query_id)
          st.queries_by_timestamp) ∧
    (computeTimeoutS g es.query_timeout_s = 0 →
      (registerQuery g now st es).2.queries_by_timestamp = st.queries_by_timestamp) ∧
    (∀ w ∈ (expireQueriesPass g now qmap queue).2, ∃ ts, (ts, w.query_id) ∈ queue) := by
  refine ⟨rfl, ?_, ?_, ?_⟩
  · intro hok hpos
    unfold registerQuery at hok ⊢
    dsimp only at hok ⊢
    rcases hss : st.session_state_map.lookup es.session_id with _ | session <;>
      rw [hss] at hok <;> dsimp only at hok ⊢
    · simp [Status.isOk, Status.err] at hok
    · by_cases hc : session.closed = true
      · rw [if_pos hc] at hok
        simp [Status.isOk, Status.err] at hok
      · rw [if_neg hc] at hok ⊢
        by_cases hdup : (st.query_exec_state_map.lookup es.query_id).isSome = true
        · rw [if_pos hdup] at hok
          simp [Status.isOk] at hok
        · rw [if_neg hdup] at hok ⊢
          rw [if_pos hpos]
  · intro h0
    unfold registerQuery
    dsimp only
    rcases hss : st.session_state_map.lookup es.session_id with _ | session
    · rfl
    · dsimp only
      by_cases hc : session.closed = true
      · rw [if_pos hc]
      · rw [if_neg hc]
        by_cases hdup : (st.query_exec_state_map.lookup es.query_id).isSome = true
        · rw [if_pos hdup]
        · rw [if_neg hdup]
          rw [if_neg (by omega : ¬ 0 < computeTimeoutS g es.query_timeout_s)]
  · exact expireQueriesPass_only_queued g now qmap queue

/-- Concrete session, query and server state for the C2/C3 witnesses. -/
def sessW : SessionState := ⟨false, false, 1, 0, [], "alice"⟩

def esW : QueryExecState :=
  ⟨7, 1, "select 1", Status.ok, 5, 0, false, false, false, false, [], "prof"⟩

def stW : ServerState := ⟨[], [(1, sessW)], [], [], [], []⟩

theorem registerQuery_effective_timeout_witness :
    (registerQuery 10 0 stW esW).2.queries_by_timestamp =
      insertByTimestamp (0 + 1000 * computeTimeoutS 10 esW.query_timeout_s, esW.query_id)
        stW.queries_by_timestamp :=
  (registerQuery_effective_timeout 10 5 0 stW esW [] []).2.1 (by decide) (by decide)

theorem unregisterQuery_of_unknown (qls : Int) (st : ServerState) (qid : TUniqueId)
    (cause : Option Status) (h : st.query_exec_state_map.lookup qid = none) :
    unregisterQuery qls st qid cause = (false, st) := by
  simp [unregisterQuery, cancelInternal, h]

theorem unregisterQuery_of_known (qls : Int) (st : ServerState) (qid : TUniqueId)
    (cause : Option Status) (es : QueryExecState)
    (h : st.query_exec_state_map.lookup qid = some es) :
    (unregisterQuery qls st qid cause).1 = true ∧
    (unregisterQuery qls st qid cause).2.query_exec_state_map.lookup qid = none := by
  simp only [unregisterQuery, cancelInternal, h]
  rw [lookup_setKey_self]
  refine ⟨rfl, ?_⟩
  dsimp only
  rw [(archiveQuery_maps_unchanged _ _ _).1]
  exact lookup_eraseKey_self _ _

/-- C3: `UnregisterQuery` of a registered query id returns true; calling it
again returns false and leaves the whole server state — query registry,
sessions' in-flight sets, archive — untouched; unregistering an id that
was never registered returns false and changes nothing. -/
theorem unregisterQuery_idempotent (qls : Int) (st : ServerState) (qid : TUniqueId)
    (cause : Option Status) :
    ((st.query_exec_state_map.lookup qid).isSome = true →
      (unregisterQuery qls st qid cause).1 = true) ∧
    (st.query_exec_state_map.lookup qid = none →
      unregisterQuery qls st qid cause = (false, st)) ∧
    unregisterQuery qls (unregisterQuery qls st qid cause).2 qid cause =
      (false, (unregisterQuery qls st qid cause).2) := by
  refine ⟨?_, ?_, ?_⟩
  · intro h
    rcases hl : st.query_exec_state_map.lookup qid with _ | es
    · rw [hl] at h; simp at h
    · exact (unregisterQuery_of_known qls st qid cause es hl).1
  · exact unregisterQuery_of_unknown qls st qid cause
  · rcases hl : st.query_exec_state_map.lookup qid with _ | es
    · have h1 : unregisterQuery qls st qid cause = (false, st) :=
        unregisterQuery_of_unknown qls st qid cause hl
      rw [h1]
      exact unregisterQuery_of_unknown qls st qid cause hl
    · exact unregisterQuery_of_unknown qls _ qid cause
        (unregisterQuery_of_known qls st qid cause es hl).2

theorem unregisterQuery_idempotent_witness :
    (unregisterQuery 25 (registerQuery 10 0 stW esW).2 7 none).1 = true :=
  (unregisterQuery_idempotent 25 (registerQuery 10 0 stW esW).2 7 none).1 (by decide)

/-- C6 counterexample: with `--query_log_size = -2` (a negative value other
than -1) the archive inserts without ever evicting, so after archiving one
query into an empty log its size is 1, exceeding the claimed bound
`max(query_log_size, 0) = 0`. -/
theorem archiveQuery_counterexample :
    ¬ (((archiveQuery (-2) stW esW).query_log.length : Int) ≤ max (-2) 0) := by
  decide

/-- C6 amended: after `ArchiveQuery` the log still carries records
most-recent-first — the new record is prepended and at most the oldest
(last) record is dropped; when `query_log_size = 0` nothing is inserted;
when `query_log_size ≥ 0` the size never exceeds `max(query_log_size, 0)`
(it is any negative value, not only -1, that makes the log unbounded); and
whenever eviction happens the evicted record's id is erased from the
id-to-record index. -/
theorem archiveQuery_invariants (size : Int) (st : ServerState) (q : QueryExecState) :
    (size = 0 → archiveQuery size st q = st) ∧
    (size ≠ 0 →
      (archiveQuery size st q).query_log = mkQueryStateRecord q :: st.query_log ∨
      (archiveQuery size st q).query_log =
        (mkQueryStateRecord q :: st.query_log).dropLast) ∧
    (0 ≤ size → (st.query_log.length : Int) ≤ max size 0 →
      ((archiveQuery size st q).query_log.length : Int) ≤ max size 0) ∧
    (size ≠ 0 → size > -1 →
      size < ((mkQueryStateRecord q :: st.query_log).length : Int) →
      ((archiveQuery size st q).query_log_index.lookup
        ((mkQueryStateRecord q :: st.query_log).getLastD default).id) = none) := by
  refine ⟨?_, ?_, ?_, ?_⟩
  · intro h0
    simp [archiveQuery, h0]
  · intro h0
    simp only [archiveQuery, if_neg h0]
    split
    · right; rfl
    · left; rfl
  · intro hnn hlen
    by_cases h0 : size = 0
    · simpa [archiveQuery, h0] using hlen
    · simp only [archiveQuery, if_neg h0]
      split
      · rename_i hcond
        have : (mkQueryStateRecord q :: st.query_log).dropLast.length =
            st.query_log.length := by
          simp [List.length_dropLast]
        rw [this]
        omega
      · rename_i hcond
        dsimp only
        have hlen2 : ((mkQueryStateRecord q :: st.query_log).length : Int) =
            (st.query_log.length : Int) + 1 := by
          simp
        omega
  · intro h0 hgt hlt
    simp only [archiveQuery, if_neg h0, if_pos (And.intro hgt hlt)]
    exact lookup_eraseKey_self _ _

theorem archiveQuery_invariants_witness :
    archiveQuery 0 stW esW = stW :=
  (archiveQuery_invariants 0 stW esW).1 rfl

/-! ## 4.A Session lookup (`ImpalaServer::GetSessionState`, lines 796-819) -/

/-- Modelled from the spec: `TimestampValue::DebugString` lives outside the
sources (`runtime/timestamp-value.h`); the expiration message embeds the
raw seconds value in its place. Nothing settled here depends on the text. -/
def timestampDebugString (t : Int) : String := toString t

/-- Embedding of `ImpalaServer::GetSessionState`. The returned triple is
(status, handle, session map after the call); on the error paths the C++
returns without assigning the output handle, rendered here as `none`. C++
integer division truncates toward zero; for the non-negative timestamps
used here it agrees with this division. -/
def getSessionState (idle_session_timeout : Int)
    (smap : List (TUniqueId × SessionState)) (sessionId : TUniqueId)
    (markActive : Bool) :
    Status × Option SessionState × List (TUniqueId × SessionState) :=
  match smap.lookup sessionId with
  | none => (Status.err "Invalid session id", none, smap)
  | some s =>
    if markActive then
      if s.expired then
        (Status.err ("Client session expired due to more than "
          ++ toString idle_session_timeout
          ++ "s of inactivity (last activity was at: "
          ++ timestampDebugString (s.last_accessed_ms / 1000) ++ ")."), none, smap)
      else if s.closed then
        (Status.err "Session is closed", none, smap)
      else
        let s2 := { s with ref_count := s.ref_count + 1 }
        (Status.ok, some s2, setKey sessionId s2 smap)
    else
      (Status.ok, some s, smap)

/-- Modelled from the spec: §4.A says lookup with `mark_active` "atomically
verifies the session is neither expired nor closed, bumps `ref_count`,
refreshes `last_accessed_ms`, and returns the handle". It differs from the
code only in the refresh of `last_accessed_ms`, which needs the current
time `now`. -/
def getSessionStateSpec (idle_session_timeout now : Int)
    (smap : List (TUniqueId × SessionState)) (sessionId : TUniqueId)
    (markActive : Bool) :
    Status × Option SessionState × List (TUniqueId × SessionState) :=
  match smap.lookup sessionId with
  | none => (Status.err "Invalid session id", none, smap)
  | some s =>
    if markActive then
      if s.expired then
        (Status.err ("Client session expired due to more than "
          ++ toString idle_session_timeout
          ++ "s of inactivity (last activity was at: "
          ++ timestampDebugString (s.last_accessed_ms / 1000) ++ ")."), none, smap)
      else if s.closed then
        (Status.err "Session is closed", none, smap)
      else
        let s2 := { s with ref_count := s.ref_count + 1, last_accessed_ms := now }
        (Status.ok, some s2, setKey sessionId s2 smap)
    else
      (Status.ok, some s, smap)

/-- Concrete session for the C7 counterexample: never accessed since epoch
second 0, no references. -/
def sessC7 : SessionState := ⟨false, false, 0, 0, [], "alice"⟩

/-- C7 counterexample: marking the session active at time 5 bumps its
`ref_count` but leaves `last_accessed_ms` at 0 — `GetSessionState` never
refreshes the activity timestamp (the refresh happens when the session is
released, not at lookup), contrary to the claim's "refreshes
last_accessed_ms". -/
theorem getSessionState_counterexample :
    (getSessionState 10 [(1, sessC7)] 1 true).2.2.lookup 1 =
      some ⟨false, false, 1, 0, [], "alice"⟩ ∧
    getSessionState 10 [(1, sessC7)] 1 true ≠
      getSessionStateSpec 10 5 [(1, sessC7)] 1 true := by
  refine ⟨by decide, by decide⟩

/-- C7 amended: session lookup with `mark_active = true` atomically
verifies the session is neither expired nor closed (returning the
corresponding error and touching nothing otherwise), increments
`ref_count` and returns the handle — but does not refresh
`last_accessed_ms`, which only changes when the session is released; with
`mark_active = false` it returns the handle without mutating any session
state; an unknown session id yields an error in both modes. -/
theorem getSessionState_modes (it : Int) (smap : List (TUniqueId × SessionState))
    (sid : TUniqueId) :
    (smap.lookup sid = none → ∀ b,
      (getSessionState it smap sid b).1.isOk = false ∧
      (getSessionState it smap sid b).2.2 = smap) ∧
    (∀ s, smap.lookup sid = some s →
      getSessionState it smap sid false = (Status.ok, some s, smap) ∧
      (s.expired = true →
        (getSessionState it smap sid true).1.isOk = false ∧
        (getSessionState it smap sid true).2.2 = smap) ∧
      (s.expired = false → s.closed = true →
        getSessionState it smap sid true =
          (Status.err "Session is closed", none, smap)) ∧
      (s.expired = false → s.closed = false →
        getSessionState it smap sid true =
          (Status.ok, some { s with ref_count := s.ref_count + 1 },
            setKey sid { s with ref_count := s.ref_count + 1 } smap))) := by
  constructor
  · intro h b
    simp [getSessionState, h, Status.isOk, Status.err]
  · intro s h
    refine ⟨by simp [getSessionState, h], ?_, ?_, ?_⟩
    · intro hexp
      simp [getSessionState, h, hexp, Status.isOk, Status.err]
    · intro hexp hcl
      simp [getSessionState, h, hexp, hcl]
    · intro hexp hcl
      simp [getSessionState, h, hexp, hcl]

theorem getSessionState_modes_witness :
    getSessionState 10 [(1, sessC7)] 1 true =
      (Status.ok, some ⟨false, false, 1, 0, [], "alice"⟩,
        setKey 1 ⟨false, false, 1, 0, [], "alice"⟩ [(1, sessC7)]) :=
  ((getSessionState_modes 10 [(1, sessC7)] 1).2 sessC7 (by decide)).2.2.2 rfl rfl

/-! ## 4.D Fragment executor endpoint
(`StartPlanFragmentExecution` lines 1099-1126, `CancelPlanFragment` lines
1054-1070, `RunExecPlanFragment` lines 1128-1157) -/

/-- One remote plan-fragment instance on this backend; `prepared` records
that `Prepare()` has returned successfully. -/
structure FragmentExecState where
  fragment_instance_id : TUniqueId
  query_id : TUniqueId
  prepared : Bool
  cancelled : Bool
deriving DecidableEq, Repr

/-- The fields of `TExecPlanFragmentParams` the handler reads, with the
result of the external `FragmentExecState::Prepare` as an oracle. -/
structure TExecPlanFragmentParams where
  has_output_sink : Bool
  fragment_instance_id : TUniqueId
  query_id : TUniqueId
  prepare_status : Status
deriving DecidableEq, Repr

abbrev FragmentMap := List (TUniqueId × FragmentExecState)

/-- Embedding of `ImpalaServer::StartPlanFragmentExecution`: reject a plan
without an output sink; call `Prepare()` synchronously *before* inserting
into the fragment map (so an async `Cancel()` can only ever find prepared
fragments); a `Prepare` error returns without registering; on success
register the prepared fragment and spawn the exec thread (external). -/
def startPlanFragmentExecution (params : TExecPlanFragmentParams)
    (fmap : FragmentMap) : Status × FragmentMap :=
  if ¬params.has_output_sink then
    (Status.err "missing sink in plan fragment", fmap)
  else
    match params.prepare_status with
    | Status.error c m => (Status.error c m, fmap)
    | Status.ok =>
      let es : FragmentExecState :=
        ⟨params.fragment_instance_id, params.query_id, true, false⟩
      (Status.ok, insertIfAbsent params.fragment_instance_id es fmap)

/-- Modelled from the spec: `FragmentExecState::Cancel`
(`fragment-exec-state.cc`, not among the sources) initiates asynchronous
cancellation of a fragment whose `Prepare()` has returned. -/
def fragmentCancel (es : FragmentExecState) : Status × FragmentExecState :=
  (Status.ok, { es with cancelled := true })

/-- Embedding of `ImpalaServer::CancelPlanFragment`: an unknown fragment id
is an INTERNAL_ERROR; otherwise only cancellation is initiated — the map
entry stays until the exec thread exits. -/
def cancelPlanFragment (fmap : FragmentMap) (fid : TUniqueId) :
    Status × FragmentMap :=
  match fmap.lookup fid with
  | none =>
    (Status.error TStatusCode.INTERNAL_ERROR ("unknown fragment id: " ++ toString fid),
      fmap)
  | some es =>
    let r := fragmentCancel es
    (r.1, setKey fid r.2 fmap)

/-- Embedding of the map manipulation of `ImpalaServer::RunExecPlanFragment`:
after `Exec()` (external) the exec thread erases its own entry. -/
def runExecPlanFragment (fmap : FragmentMap) (fid : TUniqueId) : FragmentMap :=
  eraseKey fid fmap

/-- Invariant of the fragment map: every registered fragment has been
prepared. -/
def fragmentMapPrepared (fmap : FragmentMap) : Prop :=
  ∀ p ∈ fmap, p.2.prepared = true

/-- C4: `Cancel()` can never reach a fragment before `Prepare()` returned:
`StartPlanFragmentExecution` only inserts fragments whose `Prepare()` has
returned (preserving the all-prepared invariant), any of its errors leaves
the map unchanged (a `Prepare` failure is returned synchronously without
registering), `CancelPlanFragment` answers INTERNAL_ERROR for an unknown
fragment id without touching the map, any fragment it can find is
prepared, and the exec thread's map erasure preserves the invariant. -/
theorem fragment_cancel_after_prepare (params : TExecPlanFragmentParams)
    (fmap : FragmentMap) (fid : TUniqueId) :
    (fragmentMapPrepared fmap →
      fragmentMapPrepared (startPlanFragmentExecution params fmap).2) ∧
    ((startPlanFragmentExecution params fmap).1.isOk = false →
      (startPlanFragmentExecution params fmap).2 = fmap) ∧
    (fmap.lookup fid = none →
      cancelPlanFragment fmap fid =
        (Status.error TStatusCode.INTERNAL_ERROR ("unknown fragment id: " ++ toString fid),
          fmap)) ∧
    (fragmentMapPrepared fmap →
      ∀ es, fmap.lookup fid = some es → es.prepared = true) ∧
    (fragmentMapPrepared fmap → fragmentMapPrepared (runExecPlanFragment fmap fid)) := by
  refine ⟨?_, ?_, ?_, ?_, ?_⟩
  · intro hinv
    obtain ⟨sink, fiid, qidp, prep⟩ := params
    cases sink
    · intro p hp
      simp only [startPlanFragmentExecution] at hp
      rw [if_pos (by simp)] at hp
      exact hinv p hp
    · cases prep with
      | error c m =>
        intro p hp
        simp only [startPlanFragmentExecution] at hp
        rw [if_neg (by simp)] at hp
        exact hinv p hp
      | ok =>
        intro p hp
        simp only [startPlanFragmentExecution] at hp
        rw [if_neg (by simp)] at hp
        dsimp only at hp
        unfold insertIfAbsent at hp
        split at hp
        · exact hinv p hp
        · rcases List.mem_append.mp hp with h | h
          · exact hinv p h
          · rw [List.mem_singleton.mp h]
  · intro hfail
    obtain ⟨sink, fiid, qidp, prep⟩ := params
    cases sink
    · simp only [startPlanFragmentExecution]
      rw [if_pos (by simp)]
    · cases prep with
      | error c m =>
        simp only [startPlanFragmentExecution]
        rw [if_neg (by simp)]
      | ok =>
        exfalso
        simp only [startPlanFragmentExecution] at hfail
        rw [if_neg (by simp)] at hfail
        simp [Status.isOk] at hfail
  · intro h
    unfold cancelPlanFragment
    rw [h]
  · intro hinv es h
    exact hinv (fid, es) (lookup_mem h)
  · intro hinv p hp
    unfold runExecPlanFragment eraseKey at hp
    exact hinv p (List.mem_of_mem_filter hp)

/-- Concrete data for the C4 witness: a one-fragment map. -/
def fmapW : FragmentMap := [(3, ⟨3, 7, true, false⟩)]

theorem fragment_cancel_after_prepare_witness :
    cancelPlanFragment fmapW 4 =
      (Status.error TStatusCode.INTERNAL_ERROR ("unknown fragment id: " ++ toString (4 : TUniqueId)),
        fmapW) :=
  (fragment_cancel_after_prepare ⟨true, 3, 7, Status.ok⟩ fmapW 4).2.2.1 (by decide)

/-! ## 4.C Execute / ExecuteInternal (lines 533-616) -/

/-- Results of the external collaborators consulted during one `Execute`
invocation: the offline flag, the planner (`GetExecRequest` routed through
`UpdateQueryStatus`), the audit logger (whose status `ExecuteInternal`
discards, line 593), `QueryExecState::Exec`, and the DDL flag of the
request. -/
structure ExecOracle where
  is_offline : Bool
  plan_status : Status
  audit_enabled : Bool
  audit_status : Status
  exec_status : Status
  is_ddl : Bool
deriving DecidableEq, Repr

/-- Modelled from the spec: `QueryExecState::UpdateQueryStatus`
(`query-exec-state.cc`, not among the sources) latches the first non-OK
status on the exec state and returns it. -/
def latchStatus (es : QueryExecState) (stat : Status) : QueryExecState :=
  if es.query_status.isOk then { es with query_status := stat } else es

/-- One step of the QueryLocations loop of `ExecuteInternal` (lines
605-614): `query_locations_[port].insert(query_id)`. -/
def insertQueryLocation (locs : List (TNetworkAddress × List TUniqueId))
    (a : TNetworkAddress) (qid : TUniqueId) :
    List (TNetworkAddress × List TUniqueId) :=
  if (locs.lookup a).isSome then
    locs.map (fun p =>
      if p.1 = a then (p.1, if qid ∈ p.2 then p.2 else p.2 ++ [qid]) else p)
  else locs ++ [(a, [qid])]

/-- Record every unique host of the schedule in `query_locations_`. -/
def addQueryLocations (locs : List (TNetworkAddress × List TUniqueId))
    (hosts : List TNetworkAddress) (qid : TUniqueId) :
    List (TNetworkAddress × List TUniqueId) :=
  hosts.foldl (fun l a => insertQueryLocation l a qid) locs

/-- Embedding of `ImpalaServer::ExecuteInternal`: refuse when offline;
register the query (the `registered_exec_state` flag is the middle
component); ask the planner and latch a planning error on the exec state;
audit-log (status discarded); run `Exec` (its error propagates); update
catalog metrics for DDL (external); finally record the coordinator's
unique hosts in `query_locations_`. -/
def executeInternal (g now : Int) (oracle : ExecOracle)
    (execState : QueryExecState) (st : ServerState) : Status × Bool × ServerState :=
  if oracle.is_offline then
    (Status.err "This Impala server is offline. Please retry your query later.",
      false, st)
  else
    match registerQuery g now st execState with
    | (Status.error c m, st1) => (Status.error c m, false, st1)
    | (Status.ok, st1) =>
      match oracle.plan_status with
      | Status.error c m =>
        let es2 := latchStatus execState (Status.error c m)
        let st2 := { st1 with
          query_exec_state_map := setKey execState.query_id es2 st1.query_exec_state_map }
        (Status.error c m, true, st2)
      | Status.ok =>
        match oracle.exec_status with
        | Status.error c m => (Status.error c m, true, st1)
        | Status.ok =>
          let newLocs :=
            if execState.has_coord ∧ execState.unique_hosts ≠ [] then
              addQueryLocations st1.query_locations execState.unique_hosts
                execState.query_id
            else st1.query_locations
          (Status.ok, true, { st1 with query_locations := newLocs })

/-- Embedding of `ImpalaServer::Execute`: run `ExecuteInternal` and, when
it failed after registration succeeded, unregister the new query id before
returning. (`PrepareQueryContext` — pid, timestamps and the fresh query id
— precedes this and is carried in `execState`.) -/
def execute (g now query_log_size : Int) (oracle : ExecOracle)
    (execState : QueryExecState) (st : ServerState) : Status × ServerState :=
  let r := executeInternal g now oracle execState st
  if ¬r.1.isOk ∧ r.2.1 then
    (r.1, (unregisterQuery query_log_size r.2.2 execState.query_id (some r.1)).2)
  else
    (r.1, r.2.2)

theorem registerQuery_ok_lookup (g now : Int) (st : ServerState)
    (es : QueryExecState) (h : (registerQuery g now st es).1.isOk = true) :
    (registerQuery g now st es).2.query_exec_state_map.lookup es.query_id = some es := by
  unfold registerQuery at h ⊢
  dsimp only at h ⊢
  rcases hss : st.session_state_map.lookup es.session_id with _ | session <;>
    rw [hss] at h <;> dsimp only at h ⊢
  · simp [Status.isOk, Status.err] at h
  · by_cases hc : session.closed = true
    · rw [if_pos hc] at h
      simp [Status.isOk, Status.err] at h
    · rw [if_neg hc] at h ⊢
      by_cases hdup : (st.query_exec_state_map.lookup es.query_id).isSome = true
      · rw [if_pos hdup] at h
        simp [Status.isOk] at h
      · rw [if_neg hdup] at h ⊢
        have hnone : st.query_exec_state_map.lookup es.query_id = none :=
          Option.not_isSome_iff_eq_none.mp (by simpa using hdup)
        by_cases ht : 0 < computeTimeoutS g es.query_timeout_s
        · rw [if_pos ht]
          exact lookup_append_single _ _ _ hnone
        · rw [if_neg ht]
          exact lookup_append_single _ _ _ hnone

theorem latchStatus_session_id (es : QueryExecState) (stat : Status) :
    (latchStatus es stat).session_id = es.session_id := by
  unfold latchStatus
  split <;> rfl

theorem executeInternal_registered_present (g now : Int) (oracle : ExecOracle)
    (es : QueryExecState) (st : ServerState)
    (h : (executeInternal g now oracle es st).2.1 = true) :
    ∃ es2, (executeInternal g now oracle es st).2.2.query_exec_state_map.lookup es.query_id
        = some es2 ∧ es2.session_id = es.session_id := by
  unfold executeInternal at h ⊢
  by_cases hoff : oracle.is_offline = true
  · rw [if_pos hoff] at h
    simp at h
  · rw [if_neg hoff] at h ⊢
    rcases hr : registerQuery g now st es with ⟨rs, st1⟩
    rcases rs with _ | ⟨c, m⟩
    · have hlk : st1.query_exec_state_map.lookup es.query_id = some es := by
        have := registerQuery_ok_lookup g now st es (by rw [hr]; rfl)
        rw [hr] at this
        exact this
      rcases oracle.plan_status with _ | ⟨c2, m2⟩
      · rcases oracle.exec_status with _ | ⟨c3, m3⟩
        · dsimp only
          rw [hlk]
          exact ⟨es, rfl, rfl⟩
        · dsimp only
          rw [hlk]
          exact ⟨es, rfl, rfl⟩
      · dsimp only
        rw [lookup_setKey_self]
        exact ⟨_, rfl, latchStatus_session_id es _⟩
    · rw [hr] at h
      simp at h

theorem unregisterQuery_session_absent (qls : Int) (st : ServerState)
    (qid : TUniqueId) (cause : Option Status) (es : QueryExecState)
    (h : st.query_exec_state_map.lookup qid = some es) :
    ∀ s, (unregisterQuery qls st qid cause).2.session_state_map.lookup es.session_id
        = some s → qid ∉ s.inflight_queries := by
  intro s hs
  simp only [unregisterQuery, cancelInternal, h] at hs
  rw [lookup_setKey_self] at hs
  dsimp only at hs
  rw [(archiveQuery_maps_unchanged _ _ _).2.1] at hs
  dsimp only at hs
  rw [show (execStateCancel es cause).session_id = es.session_id from rfl] at hs
  rw [lookup_eraseInflight] at hs
  rcases hl : st.session_state_map.lookup es.session_id with _ | s0
  · rw [hl] at hs
    simp at hs
  · rw [hl] at hs
    simp only [Option.map_some'] at hs
    injection hs with hs
    rw [← hs]
    simp [sessionEraseQ, List.mem_filter]

/-- Oracle for the C10 counterexample: planning and Exec succeed while the
enabled audit logging fails (its status is discarded by `ExecuteInternal`,
and `--abort_on_failed_audit_event` is off). -/
def oracleC10 : ExecOracle :=
  ⟨false, Status.ok, true, Status.err "audit append failed", Status.ok, false⟩

/-- C10 counterexample: with a failing audit step (one of the claim's
"later steps") and everything else succeeding, `Execute` returns OK and the
query stays registered — no `UnregisterQuery` happens, because
`ExecuteInternal` discards the `LogAuditRecord` status (line 593). -/
theorem execute_counterexample :
    oracleC10.audit_status.isOk = false ∧
    (execute 10 0 25 oracleC10 esW stW).1 = Status.ok ∧
    ((execute 10 0 25 oracleC10 esW stW).2.query_exec_state_map.lookup
      esW.query_id).isSome = true := by
  refine ⟨by decide, by decide, by decide⟩

/-- C10 amended: Execute is atomic with respect to registration on failure
of planning or of Exec (audit-log failures are ignored by `ExecuteInternal`
unless the abort flag terminates the process): whenever registration
succeeded and `Execute` returns a non-OK status, it has called
`UnregisterQuery` on the new query id before returning, so the failed query
is in neither the query registry nor the owning session's in-flight set. -/
theorem execute_unregisters_on_failure (g now qls : Int) (oracle : ExecOracle)
    (es : QueryExecState) (st : ServerState)
    (hreg : (executeInternal g now oracle es st).2.1 = true)
    (hfail : (execute g now qls oracle es st).1.isOk = false) :
    (execute g now qls oracle es st).2.query_exec_state_map.lookup es.query_id = none ∧
    ∀ s, (execute g now qls oracle es st).2.session_state_map.lookup es.session_id
        = some s → es.query_id ∉ s.inflight_queries := by
  have hfst : (execute g now qls oracle es st).1 = (executeInternal g now oracle es st).1 := by
    unfold execute
    dsimp only
    split <;> rfl
  have hfail' : (executeInternal g now oracle es st).1.isOk = false := by
    rw [← hfst]; exact hfail
  have hif : ¬ (executeInternal g now oracle es st).1.isOk = true ∧
      (executeInternal g now oracle es st).2.1 = true := ⟨by simp [hfail'], hreg⟩
  have hx : execute g now qls oracle es st =
      ((executeInternal g now oracle es st).1,
        (unregisterQuery qls (executeInternal g now oracle es st).2.2 es.query_id
          (some (executeInternal g now oracle es st).1)).2) := by
    unfold execute
    dsimp only
    rw [if_pos hif]
  rw [hx]
  rcases executeInternal_registered_present g now oracle es st hreg with ⟨es2, hlk, hsid⟩
  constructor
  · exact (unregisterQuery_of_known qls _ es.query_id _ es2 hlk).2
  · intro s hs
    refine unregisterQuery_session_absent qls (executeInternal g now oracle es st).2.2
      es.query_id (some (executeInternal g now oracle es st).1) es2 hlk s ?_
    rw [hsid]
    exact hs

/-- Oracle for the C10 witness: planning fails. -/
def oracleFailW : ExecOracle :=
  ⟨false, Status.err "plan failed", false, Status.ok, Status.ok, false⟩

theorem execute_unregisters_on_failure_witness :
    (execute 10 0 25 oracleFailW esW stW).2.query_exec_state_map.lookup esW.query_id
      = none ∧
    ∀ s, (execute 10 0 25 oracleFailW esW stW).2.session_state_map.lookup esW.session_id
        = some s → esW.query_id ∉ s.inflight_queries :=
  execute_unregisters_on_failure 10 0 25 oracleFailW esW stW (by decide) (by decide)

/-! ## 4.H Membership reconciler
(`ImpalaServer::MembershipCallback`, lines 1539-1632) -/

/-- `MAX_CANCELLATION_QUEUE_SIZE` (line 159). -/
def MAX_CANCELLATION_QUEUE_SIZE : Nat := 65536

/-- `queries_to_cancel[*query_id].push_back(addr)`: `queries_to_cancel` is
a `std::map` ordered by query id, and `operator[]` inserts an empty vector
for a new key; the address is appended to the key's vector. -/
def appendFailedHost (m : List (TUniqueId × List TNetworkAddress)) (q : TUniqueId)
    (a : TNetworkAddress) : List (TUniqueId × List TNetworkAddress) :=
  match m with
  | [] => [(q, [a])]
  | (k, v) :: rest =>
    if q < k then (q, [a]) :: (k, v) :: rest
    else if q = k then (k, v ++ [a]) :: rest
    else (k, v) :: appendFailedHost rest q a

/-- The failed-backend scan of `MembershipCallback` (lines 1580-1606): walk
`query_locations_` in order; for every entry whose address is absent from
the current membership, append that address to the pending cause list of
each of its queries. (`CloseConnections` is external.) -/
def buildQueriesToCancel (membership : List TNetworkAddress)
    (locs : List (TNetworkAddress × List TUniqueId)) :
    List (TUniqueId × List TNetworkAddress) :=
  locs.foldl
    (fun m e =>
      if e.1 ∈ membership then m
      else e.2.foldl (fun m2 q => appendFailedHost m2 q e.1) m)
    []

/-- The cause message built at lines 1621-1626: the fixed text followed by
the failed addresses joined with `", "`. -/
def causeMsg (hosts : List TNetworkAddress) : String :=
  "Cancelled due to unreachable impalad(s): " ++ String.intercalate ", " hosts

/-- Embedding of the reconciliation part of `MembershipCallback`: build the
map of queries to cancel, erase the failed entries from
`query_locations_`, and — unless the cancellation queue would overflow —
offer one non-unregister work item per affected query. -/
def membershipReconcile (membership : List TNetworkAddress)
    (locs : List (TNetworkAddress × List TUniqueId)) (queueSize : Nat) :
    List (TNetworkAddress × List TUniqueId) × List CancellationWork :=
  let queriesToCancel := buildQueriesToCancel membership locs
  let locs2 := locs.filter (fun e => decide (e.1 ∈ membership))
  let works :=
    if MAX_CANCELLATION_QUEUE_SIZE < queueSize + queriesToCancel.length then []
    else queriesToCancel.map (fun e => ⟨e.1, Status.err (causeMsg e.2), false⟩)
  (locs2, works)

/-- Declarative form of a query's failed-backend list: the addresses of the
location entries (in map order) that are absent from the membership and
host the query. -/
def failedHostsOf (membership : List TNetworkAddress)
    (locs : List (TNetworkAddress × List TUniqueId)) (q : TUniqueId) :
    List TNetworkAddress :=
  (locs.filter (fun e => decide (¬ e.1 ∈ membership) && decide (q ∈ e.2))).map
    Prod.fst

/-- Strictly ascending keys, the `std::map` invariant. -/
def sortedKeys (m : List (TUniqueId × List TNetworkAddress)) : Prop :=
  m.Pairwise (fun x y => x.1 < y.1)

theorem keys_appendFailedHost {q : TUniqueId} {a : TNetworkAddress} :
    ∀ {m : List (TUniqueId × List TNetworkAddress)} {p : TUniqueId × List TNetworkAddress},
      p ∈ appendFailedHost m q a → p.1 = q ∨ ∃ v, (p.1, v) ∈ m := by
  intro m
  induction m with
  | nil =>
    intro p hp
    simp only [appendFailedHost, List.mem_singleton] at hp
    left
    rw [hp]
  | cons e rest ih =>
    obtain ⟨k, v⟩ := e
    intro p hp
    by_cases h1 : q < k
    · simp only [appendFailedHost, if_pos h1, List.mem_cons] at hp
      rcases hp with hp | hp | hp
      · left; rw [hp]
      · right; exact ⟨v, by rw [hp]; exact List.mem_cons_self _ _⟩
      · right; exact ⟨p.2, List.mem_cons_of_mem _ (by simpa using hp)⟩
    · by_cases h2 : q = k
      · simp only [appendFailedHost, if_neg h1, if_pos h2, List.mem_cons] at hp
        rcases hp with hp | hp
        · left; rw [hp]; rw [h2]
        · right; exact ⟨p.2, List.mem_cons_of_mem _ (by simpa using hp)⟩
      · simp only [appendFailedHost, if_neg h1, if_neg h2, List.mem_cons] at hp
        rcases hp with hp | hp
        · right; exact ⟨v, by rw [hp]; exact List.mem_cons_self _ _⟩
        · rcases ih hp with h | ⟨v2, hv⟩
          · left; exact h
          · right; exact ⟨v2, List.mem_cons_of_mem _ hv⟩

theorem appendFailedHost_sorted {q : TUniqueId} {a : TNetworkAddress} :
    ∀ {m : List (TUniqueId × List TNetworkAddress)}, sortedKeys m →
      sortedKeys (appendFailedHost m q a) := by
  intro m
  induction m with
  | nil =>
    intro _
    simp [appendFailedHost, sortedKeys]
  | cons e rest ih =>
    obtain ⟨k, v⟩ := e
    intro hs
    rcases List.pairwise_cons.mp hs with ⟨hlt, hrest⟩
    by_cases h1 : q < k
    · simp only [appendFailedHost, if_pos h1]
      refine List.pairwise_cons.mpr ⟨?_, hs⟩
      intro p hp
      rcases List.mem_cons.mp hp with hp | hp
      · rw [hp]; exact h1
      · exact lt_trans h1 (hlt p hp)
    · by_cases h2 : q = k
      · simp only [appendFailedHost, if_neg h1, if_pos h2]
        exact List.pairwise_cons.mpr ⟨hlt, hrest⟩
      · simp only [appendFailedHost, if_neg h1, if_neg h2]
        refine List.pairwise_cons.mpr ⟨?_, ih hrest⟩
        intro p hp
        rcases keys_appendFailedHost hp with h | ⟨v2, hv⟩
        · show k < p.1
          rw [h]
          exact Nat.lt_of_le_of_ne (Nat.not_lt.mp h1) (fun hh => h2 hh.symm)
        · exact hlt (p.1, v2) hv

theorem lookup_none_of_keys_gt {q : TUniqueId} :
    ∀ {m : List (TUniqueId × List TNetworkAddress)},
      (∀ p ∈ m, q < p.1) → m.lookup q = none := by
  intro m
  induction m with
  | nil => intro _; rfl
  | cons e rest ih =>
    obtain ⟨k, v⟩ := e
    intro hgt
    have hq : q < k := hgt (k, v) (List.mem_cons_self _ _)
    rw [lookup_cons_eq, if_neg (Ne.symm (Nat.ne_of_lt hq))]
    exact ih (fun p hp => hgt p (List.mem_cons_of_mem _ hp))

theorem appendFailedHost_lookup_self {q : TUniqueId} {a : TNetworkAddress} :
    ∀ {m : List (TUniqueId × List TNetworkAddress)}, sortedKeys m →
      (appendFailedHost m q a).lookup q = some (((m.lookup q).getD []) ++ [a]) := by
  intro m
  induction m with
  | nil =>
    intro _
    simp [appendFailedHost, lookup_cons_eq]
  | cons e rest ih =>
    obtain ⟨k, v⟩ := e
    intro hs
    rcases List.pairwise_cons.mp hs with ⟨hlt, hrest⟩
    by_cases h1 : q < k
    · simp only [appendFailedHost, if_pos h1]
      rw [lookup_cons_eq, if_pos rfl]
      have hnone : ((k, v) :: rest).lookup q = none := by
        refine lookup_none_of_keys_gt ?_
        intro p hp
        rcases List.mem_cons.mp hp with hp | hp
        · rw [hp]; exact h1
        · exact lt_trans h1 (hlt p hp)
      rw [hnone]
      rfl
    · by_cases h2 : q = k
      · simp only [appendFailedHost, if_neg h1, if_pos h2]
        rw [lookup_cons_eq, if_pos h2.symm, lookup_cons_eq, if_pos h2.symm]
        rfl
      · simp only [appendFailedHost, if_neg h1, if_neg h2]
        rw [lookup_cons_eq, if_neg (fun h => h2 h.symm),
          lookup_cons_eq, if_neg (fun h => h2 h.symm)]
        exact ih hrest

theorem appendFailedHost_lookup_other {q q2 : TUniqueId} {a : TNetworkAddress}
    (hne : ¬ q2 = q) :
    ∀ {m : List (TUniqueId × List TNetworkAddress)},
      (appendFailedHost m q a).lookup q2 = m.lookup q2 := by
  intro m
  induction m with
  | nil =>
    rw [show appendFailedHost [] q a = [(q, [a])] from rfl, lookup_cons_eq,
      if_neg (fun h => hne h.symm)]
  | cons e rest ih =>
    obtain ⟨k, v⟩ := e
    by_cases h1 : q < k
    · simp only [appendFailedHost, if_pos h1]
      rw [lookup_cons_eq, if_neg (fun h => hne h.symm)]
    · by_cases h2 : q = k
      · simp only [appendFailedHost, if_neg h1, if_pos h2]
        rw [lookup_cons_eq, lookup_cons_eq,
          if_neg (fun h => hne ((h2.trans h).symm)),
          if_neg (fun h => hne ((h2.trans h).symm))]
      · simp only [appendFailedHost, if_neg h1, if_neg h2]
        rw [lookup_cons_eq, lookup_cons_eq]
        by_cases h3 : k = q2
        · simp [h3]
        · simp only [if_neg h3]
          exact ih

theorem foldl_appendFailedHost_char (a : TNetworkAddress) :
    ∀ (qs : List TUniqueId) (m : List (TUniqueId × List TNetworkAddress)),
      sortedKeys m → qs.Nodup →
      sortedKeys (qs.foldl (fun m2 q2 => appendFailedHost m2 q2 a) m) ∧
      (∀ q : TUniqueId,
        (qs.foldl (fun m2 q2 => appendFailedHost m2 q2 a) m).lookup q =
          if q ∈ qs then some (((m.lookup q).getD []) ++ [a]) else m.lookup q) := by
  intro qs
  induction qs with
  | nil =>
    intro m hs _
    exact ⟨hs, fun q => by simp⟩
  | cons q0 qs ih =>
    intro m hs hnd
    rcases List.nodup_cons.mp hnd with ⟨hq0, hnd2⟩
    have hs1 : sortedKeys (appendFailedHost m q0 a) := appendFailedHost_sorted hs
    rcases ih (appendFailedHost m q0 a) hs1 hnd2 with ⟨hsf, hlf⟩
    refine ⟨by simpa using hsf, ?_⟩
    intro q
    simp only [List.foldl_cons]
    rw [hlf q]
    by_cases he : q = q0
    · subst he
      rw [if_neg hq0, appendFailedHost_lookup_self hs,
        if_pos (List.mem_cons_self q qs)]
    · have hother : (appendFailedHost m q0 a).lookup q = m.lookup q :=
        appendFailedHost_lookup_other he
      by_cases hin : q ∈ qs
      · rw [if_pos hin, hother, if_pos (List.mem_cons_of_mem _ hin)]
      · rw [if_neg hin, hother, if_neg (by simp [List.mem_cons, he, hin])]

theorem buildQueriesToCancel_char (membership : List TNetworkAddress) :
    ∀ (locs : List (TNetworkAddress × List TUniqueId))
      (m : List (TUniqueId × List TNetworkAddress)),
      sortedKeys m → (∀ e ∈ locs, e.2.Nodup) →
      sortedKeys (locs.foldl
        (fun m2 e => if e.1 ∈ membership then m2
          else e.2.foldl (fun m3 q => appendFailedHost m3 q e.1) m2) m) ∧
      (∀ q : TUniqueId,
        (locs.foldl
          (fun m2 e => if e.1 ∈ membership then m2
            else e.2.foldl (fun m3 q => appendFailedHost m3 q e.1) m2) m).lookup q =
          if failedHostsOf membership locs q = [] then m.lookup q
          else some (((m.lookup q).getD []) ++ failedHostsOf membership locs q)) := by
  intro locs
  induction locs with
  | nil =>
    intro m hs _
    exact ⟨hs, fun q => by simp [failedHostsOf]⟩
  | cons e locs ih =>
    intro m hs hnd
    obtain ⟨addr, qs⟩ := e
    have hnd0 : qs.Nodup := hnd (addr, qs) (List.mem_cons_self _ _)
    have hnd2 : ∀ e2 ∈ locs, e2.2.Nodup :=
      fun e2 he2 => hnd e2 (List.mem_cons_of_mem _ he2)
    by_cases hmem : addr ∈ membership
    · simp only [List.foldl_cons, if_pos hmem]
      have hfe : ∀ q, failedHostsOf membership ((addr, qs) :: locs) q =
          failedHostsOf membership locs q := by
        intro q
        simp [failedHostsOf, List.filter_cons, hmem]
      rcases ih m hs hnd2 with ⟨h1, h2⟩
      exact ⟨h1, fun q => by rw [hfe q]; exact h2 q⟩
    · simp only [List.foldl_cons, if_neg hmem]
      rcases foldl_appendFailedHost_char addr qs m hs hnd0 with ⟨hs1, hl1⟩
      rcases ih _ hs1 hnd2 with ⟨h1, h2⟩
      refine ⟨h1, ?_⟩
      intro q
      rw [h2 q]
      by_cases hq : q ∈ qs
      · have hfc : failedHostsOf membership ((addr, qs) :: locs) q =
            addr :: failedHostsOf membership locs q := by
          simp [failedHostsOf, List.filter_cons, hmem, hq]
        have hmq : (qs.foldl (fun m3 q2 => appendFailedHost m3 q2 addr) m).lookup q =
            some (((m.lookup q).getD []) ++ [addr]) := by
          rw [hl1 q, if_pos hq]
        rw [hfc, if_neg (List.cons_ne_nil _ _)]
        by_cases ht : failedHostsOf membership locs q = []
        · rw [if_pos ht, hmq, ht]
        · rw [if_neg ht, hmq]
          simp [List.append_assoc]
      · have hfc : failedHostsOf membership ((addr, qs) :: locs) q =
            failedHostsOf membership locs q := by
          simp [failedHostsOf, List.filter_cons, hq]
        have hmq : (qs.foldl (fun m3 q2 => appendFailedHost m3 q2 addr) m).lookup q =
            m.lookup q := by
          rw [hl1 q, if_neg hq]
        rw [hfc, hmq]

theorem lookup_buildQueriesToCancel (membership : List TNetworkAddress)
    (locs : List (TNetworkAddress × List TUniqueId)) (q : TUniqueId)
    (hnd : ∀ e ∈ locs, e.2.Nodup) :
    (buildQueriesToCancel membership locs).lookup q =
      if failedHostsOf membership locs q = [] then none
      else some (failedHostsOf membership locs q) := by
  have h := (buildQueriesToCancel_char membership locs []
    (by simp [sortedKeys]) hnd).2 q
  simpa [buildQueriesToCancel] using h

theorem buildQueriesToCancel_sorted (membership : List TNetworkAddress)
    (locs : List (TNetworkAddress × List TUniqueId))
    (hnd : ∀ e ∈ locs, e.2.Nodup) :
    sortedKeys (buildQueriesToCancel membership locs) :=
  (buildQueriesToCancel_char membership locs [] (by simp [sortedKeys]) hnd).1

theorem filter_eq_of_sortedKeys (q : TUniqueId) :
    ∀ m : List (TUniqueId × List TNetworkAddress), sortedKeys m →
      m.filter (fun e => decide (e.1 = q)) =
        (match m.lookup q with
          | none => []
          | some v => [(q, v)]) := by
  intro m
  induction m with
  | nil => intro _; rfl
  | cons e rest ih =>
    obtain ⟨k, v⟩ := e
    intro hs
    rcases List.pairwise_cons.mp hs with ⟨hlt, hrest⟩
    by_cases hk : k = q
    · subst hk
      have hrestf : rest.filter (fun e => decide (e.1 = k)) = [] := by
        rw [List.filter_eq_nil_iff]
        intro p hp
        have hpk := hlt p hp
        simp only [decide_eq_true_eq]
        exact fun hh => absurd hpk (by rw [hh]; exact lt_irrefl _)
      rw [lookup_cons_eq, if_pos rfl]
      simp [List.filter_cons, hrestf]
    · rw [lookup_cons_eq, if_neg hk, List.filter_cons]
      simp only [decide_eq_true_eq, hk, if_false]
      exact ih hrest

/-- C8: for a membership update in which some backend addresses of
`QueryLocations` are absent from the new membership set: when the
cancellation queue would not overflow, each query hosting a fragment on
such a backend gets exactly one non-unregister (cancel-kind) work item,
whose cause message is `"Cancelled due to unreachable impalad(s): "`
followed by the comma-separated list of that query's failed backend
addresses, and queries on no failed backend get none; every failed
backend's entry is erased from `QueryLocations`; when the queue would
overflow, no work item at all is enqueued for the pass. (The per-entry
query sets are `unordered_set`s, hence duplicate-free.) -/
theorem membershipReconcile_correct (membership : List TNetworkAddress)
    (locs : List (TNetworkAddress × List TUniqueId)) (queueSize : Nat)
    (hnd : ∀ e ∈ locs, e.2.Nodup) :
    (queueSize + (buildQueriesToCancel membership locs).length ≤
        MAX_CANCELLATION_QUEUE_SIZE →
      ∀ q : TUniqueId,
        (membershipReconcile membership locs queueSize).2.filter
            (fun w => decide (w.query_id = q)) =
          (if failedHostsOf membership locs q = [] then []
            else [⟨q, Status.err (causeMsg (failedHostsOf membership locs q)), false⟩])) ∧
    (MAX_CANCELLATION_QUEUE_SIZE <
        queueSize + (buildQueriesToCancel membership locs).length →
      (membershipReconcile membership locs queueSize).2 = []) ∧
    (∀ a : TNetworkAddress, ¬ a ∈ membership →
      (membershipReconcile membership locs queueSize).1.lookup a = none) ∧
    (∀ w ∈ (membershipReconcile membership locs queueSize).2, w.unregister = false) := by
  refine ⟨?_, ?_, ?_, ?_⟩
  · intro hle q
    unfold membershipReconcile
    dsimp only
    rw [if_neg (by omega)]
    rw [List.filter_map]
    have hcomp : ((fun w : CancellationWork => decide (w.query_id = q)) ∘
        (fun e : TUniqueId × List TNetworkAddress =>
          (⟨e.1, Status.err (causeMsg e.2), false⟩ : CancellationWork))) =
        fun e : TUniqueId × List TNetworkAddress => decide (e.1 = q) := rfl
    rw [hcomp]
    rw [filter_eq_of_sortedKeys q _ (buildQueriesToCancel_sorted membership locs hnd)]
    rw [lookup_buildQueriesToCancel membership locs q hnd]
    by_cases hf : failedHostsOf membership locs q = []
    · rw [if_pos hf, if_pos hf]
      rfl
    · rw [if_neg hf, if_neg hf]
      rfl
  · intro hlt
    unfold membershipReconcile
    dsimp only
    rw [if_pos (by omega)]
  · intro a ha
    unfold membershipReconcile
    dsimp only
    rcases hl : (locs.filter (fun e => decide (e.1 ∈ membership))).lookup a with _ | v
    · exact hl
    · exfalso
      have hm := lookup_mem hl
      rcases List.mem_filter.mp hm with ⟨-, hpred⟩
      exact ha (by simpa using hpred)
  · intro w hw
    unfold membershipReconcile at hw
    dsimp only at hw
    split at hw
    · simp at hw
    · rcases List.mem_map.mp hw with ⟨e, -, he⟩
      rw [← he]

/-- Concrete data for the C8 witness: backend `b2` has fallen out of the
membership while hosting queries 1 and 2. -/
def locsW : List (TNetworkAddress × List TUniqueId) := [("b1", [1]), ("b2", [1, 2])]

theorem membershipReconcile_correct_witness :
    (membershipReconcile ["b1"] locsW 0).2.filter
        (fun w => decide (w.query_id = 1)) =
      (if failedHostsOf ["b1"] locsW 1 = [] then []
        else [⟨1, Status.err (causeMsg (failedHostsOf ["b1"] locsW 1)), false⟩]) :=
  (membershipReconcile_correct ["b1"] locsW 0 (by decide)).1 (by decide) 1

/-! ## Query options: SetQueryOptions / ParseQueryOptions /
TQueryOptionsToMap (lines 822-841, 855-1004, 1195-1291)

The option ids and names come from the generated
`_TImpalaQueryOptions_VALUES_TO_NAMES`; the names are fixed by the case
labels of `SetQueryOptions`. No settled result depends on the relative
order of the ids. -/

/-- The enumerated per-query options handled by `SetQueryOptions` and
`TQueryOptionsToMap`. -/
inductive TImpalaQueryOptions where
  | ABORT_ON_ERROR
  | MAX_ERRORS
  | DISABLE_CODEGEN
  | BATCH_SIZE
  | MEM_LIMIT
  | NUM_NODES
  | MAX_SCAN_RANGE_LENGTH
  | MAX_IO_BUFFERS
  | NUM_SCANNER_THREADS
  | ALLOW_UNSUPPORTED_FORMATS
  | DEFAULT_ORDER_BY_LIMIT
  | DEBUG_ACTION
  | ABORT_ON_DEFAULT_LIMIT_EXCEEDED
  | COMPRESSION_CODEC
  | HBASE_CACHING
  | HBASE_CACHE_BLOCKS
  | PARQUET_FILE_SIZE
  | EXPLAIN_LEVEL
  | SYNC_DDL
  | REQUEST_POOL
  | V_CPU_CORES
  | RESERVATION_REQUEST_TIMEOUT
  | DISABLE_CACHED_READS
  | DISABLE_OUTERMOST_TOPN
  | RM_INITIAL_MEM
  | QUERY_TIMEOUT_S
  | MAX_BLOCK_MGR_MEMORY
deriving DecidableEq, Repr

/-- The HDFS compression codecs named in the `COMPRESSION_CODEC` case; the
numeric ids follow the declaration order of the generated thrift enum (only
their decimal rendering is observable here). -/
inductive THdfsCompression where
  | NONE
  | DEFAULT
  | GZIP
  | DEFLATE
  | BZIP2
  | SNAPPY
  | SNAPPY_BLOCKED
  | LZO
deriving DecidableEq, Repr

def THdfsCompression.toInt : THdfsCompression → Int
  | NONE => 0
  | DEFAULT => 1
  | GZIP => 2
  | DEFLATE => 3
  | BZIP2 => 4
  | SNAPPY => 5
  | SNAPPY_BLOCKED => 6
  | LZO => 7

/-- Explain levels (`minimal=0, standard=1, extended=2, verbose=3`). -/
inductive TExplainLevel where
  | MINIMAL
  | STANDARD
  | EXTENDED
  | VERBOSE
deriving DecidableEq, Repr

def TExplainLevel.toInt : TExplainLevel → Int
  | MINIMAL => 0
  | STANDARD => 1
  | EXTENDED => 2
  | VERBOSE => 3

/-- The `TQueryOptions` fields covered by the enumerated option set. -/
structure TQueryOptions where
  abort_on_error : Bool
  max_errors : Int
  disable_codegen : Bool
  batch_size : Int
  mem_limit : Int
  num_nodes : Int
  max_scan_range_length : Int
  max_io_buffers : Int
  num_scanner_threads : Int
  allow_unsupported_formats : Bool
  default_order_by_limit : Int
  debug_action : String
  abort_on_default_limit_exceeded : Bool
  compression_codec : THdfsCompression
  hbase_caching : Int
  hbase_cache_blocks : Bool
  parquet_file_size : Int
  explain_level : TExplainLevel
  sync_ddl : Bool
  request_pool : String
  v_cpu_cores : Int
  reservation_request_timeout : Int
  disable_cached_reads : Bool
  disable_outermost_topn : Bool
  rm_initial_mem : Int
  query_timeout_s : Int
  max_block_mgr_memory : Int
deriving DecidableEq, Repr

/-- The option names of `_TImpalaQueryOptions_VALUES_TO_NAMES`. -/
def TImpalaQueryOptions.name : TImpalaQueryOptions → String
  | ABORT_ON_ERROR => "ABORT_ON_ERROR"
  | MAX_ERRORS => "MAX_ERRORS"
  | DISABLE_CODEGEN => "DISABLE_CODEGEN"
  | BATCH_SIZE => "BATCH_SIZE"
  | MEM_LIMIT => "MEM_LIMIT"
  | NUM_NODES => "NUM_NODES"
  | MAX_SCAN_RANGE_LENGTH => "MAX_SCAN_RANGE_LENGTH"
  | MAX_IO_BUFFERS => "MAX_IO_BUFFERS"
  | NUM_SCANNER_THREADS => "NUM_SCANNER_THREADS"
  | ALLOW_UNSUPPORTED_FORMATS => "ALLOW_UNSUPPORTED_FORMATS"
  | DEFAULT_ORDER_BY_LIMIT => "DEFAULT_ORDER_BY_LIMIT"
  | DEBUG_ACTION => "DEBUG_ACTION"
  | ABORT_ON_DEFAULT_LIMIT_EXCEEDED => "ABORT_ON_DEFAULT_LIMIT_EXCEEDED"
  | COMPRESSION_CODEC => "COMPRESSION_CODEC"
  | HBASE_CACHING => "HBASE_CACHING"
  | HBASE_CACHE_BLOCKS => "HBASE_CACHE_BLOCKS"
  | PARQUET_FILE_SIZE => "PARQUET_FILE_SIZE"
  | EXPLAIN_LEVEL => "EXPLAIN_LEVEL"
  | SYNC_DDL => "SYNC_DDL"
  | REQUEST_POOL => "REQUEST_POOL"
  | V_CPU_CORES => "V_CPU_CORES"
  | RESERVATION_REQUEST_TIMEOUT => "RESERVATION_REQUEST_TIMEOUT"
  | DISABLE_CACHED_READS => "DISABLE_CACHED_READS"
  | DISABLE_OUTERMOST_TOPN => "DISABLE_OUTERMOST_TOPN"
  | RM_INITIAL_MEM => "RM_INITIAL_MEM"
  | QUERY_TIMEOUT_S => "QUERY_TIMEOUT_S"
  | MAX_BLOCK_MGR_MEMORY => "MAX_BLOCK_MGR_MEMORY"

/-- All options, in id order: the iteration order of
`_TImpalaQueryOptions_VALUES_TO_NAMES` (a `std::map` keyed by id). -/
def allQueryOptions : List TImpalaQueryOptions :=
  [.ABORT_ON_ERROR, .MAX_ERRORS, .DISABLE_CODEGEN, .BATCH_SIZE, .MEM_LIMIT,
    .NUM_NODES, .MAX_SCAN_RANGE_LENGTH, .MAX_IO_BUFFERS, .NUM_SCANNER_THREADS,
    .ALLOW_UNSUPPORTED_FORMATS, .DEFAULT_ORDER_BY_LIMIT, .DEBUG_ACTION,
    .ABORT_ON_DEFAULT_LIMIT_EXCEEDED, .COMPRESSION_CODEC, .HBASE_CACHING,
    .HBASE_CACHE_BLOCKS, .PARQUET_FILE_SIZE, .EXPLAIN_LEVEL, .SYNC_DDL,
    .REQUEST_POOL, .V_CPU_CORES, .RESERVATION_REQUEST_TIMEOUT,
    .DISABLE_CACHED_READS, .DISABLE_OUTERMOST_TOPN, .RM_INITIAL_MEM,
    .QUERY_TIMEOUT_S, .MAX_BLOCK_MGR_MEMORY]

/-- Embedding of `ImpalaServer::GetQueryOption` (lines 1159-1168): scan the
names case-insensitively; `none` for the `-1` miss. -/
def getQueryOption (key : String) : Option TImpalaQueryOptions :=
  allQueryOptions.find? (fun o => iequals key o.name)

/-- Digit-string value (the accumulation C `atoi` performs). -/
def digitsVal (ds : List Char) : Int :=
  ds.foldl (fun acc c => acc * 10 + ((c.toNat - 48 : Nat) : Int)) 0

/-- C `atoi`/`atol`: skip leading whitespace, take an optional sign and the
longest digit prefix; 0 when there are no digits. -/
def atoi (s : String) : Int :=
  let cs := s.toList.dropWhile Char.isWhitespace
  match cs with
  | '-' :: rest => - digitsVal (rest.takeWhile Char.isDigit)
  | '+' :: rest => digitsVal (rest.takeWhile Char.isDigit)
  | _ => digitsVal (cs.takeWhile Char.isDigit)

/-- Modelled from the spec: `ParseUtil::ParseMemSpec` (`util/parse-util.h`)
is not among the sources. For the plain numerals arising here it parses a
byte count: a non-empty all-digit string gives its value and no percent
flag; anything else (including a leading minus) yields -1. -/
def parseMemSpec (value : String) : Int × Bool :=
  let cs := value.toList
  if cs ≠ [] ∧ cs.all Char.isDigit then (digitsVal cs, false) else (-1, false)

/-- Embedding of the file-static `ParseMemValue` (lines 843-853). -/
def parseMemValue (value key : String) : Status × Int :=
  let r := parseMemSpec value
  if r.1 < 0 then
    (Status.err ("Failed to parse " ++ key ++ " from \x27" ++ value ++ "\x27."), r.1)
  else if r.2 then
    (Status.err ("Invalid " ++ key ++ " with percent \x27" ++ value ++ "\x27."), r.1)
  else (Status.ok, r.1)

/-- The recurring `iequals(value, "true") || iequals(value, "1")`. -/
def boolVal (value : String) : Bool :=
  iequals value "true" || iequals value "1"

/-- Embedding of `ImpalaServer::SetQueryOptions`: dispatch on the
(case-insensitive) key; unknown keys and malformed values yield the errors
of the source; every other case sets the corresponding field. -/
def setQueryOptions (key value : String) (qo : TQueryOptions) :
    Status × TQueryOptions :=
  match getQueryOption key with
  | none => (Status.err ("Ignoring invalid configuration option: " ++ key), qo)
  | some opt =>
    match opt with
    | .ABORT_ON_ERROR => (Status.ok, { qo with abort_on_error := boolVal value })
    | .MAX_ERRORS => (Status.ok, { qo with max_errors := atoi value })
    | .DISABLE_CODEGEN => (Status.ok, { qo with disable_codegen := boolVal value })
    | .BATCH_SIZE => (Status.ok, { qo with batch_size := atoi value })
    | .MEM_LIMIT =>
      match parseMemValue value "query memory limit" with
      | (Status.ok, v) => (Status.ok, { qo with mem_limit := v })
      | (e, _) => (e, qo)
    | .NUM_NODES => (Status.ok, { qo with num_nodes := atoi value })
    | .MAX_SCAN_RANGE_LENGTH =>
      (Status.ok, { qo with max_scan_range_length := atoi value })
    | .MAX_IO_BUFFERS => (Status.ok, { qo with max_io_buffers := atoi value })
    | .NUM_SCANNER_THREADS =>
      (Status.ok, { qo with num_scanner_threads := atoi value })
    | .ALLOW_UNSUPPORTED_FORMATS =>
      (Status.ok, { qo with allow_unsupported_formats := boolVal value })
    | .DEFAULT_ORDER_BY_LIMIT =>
      (Status.ok, { qo with default_order_by_limit := atoi value })
    | .DEBUG_ACTION => (Status.ok, { qo with debug_action := value })
    | .ABORT_ON_DEFAULT_LIMIT_EXCEEDED =>
      (Status.ok, { qo with abort_on_default_limit_exceeded := boolVal value })
    | .COMPRESSION_CODEC =>
      if value = "" then (Status.ok, qo)
      else if iequals value "none" then
        (Status.ok, { qo with compression_codec := THdfsCompression.NONE })
      else if iequals value "gzip" then
        (Status.ok, { qo with compression_codec := THdfsCompression.GZIP })
      else if iequals value "bzip2" then
        (Status.ok, { qo with compression_codec := THdfsCompression.BZIP2 })
      else if iequals value "default" then
        (Status.ok, { qo with compression_codec := THdfsCompression.DEFAULT })
      else if iequals value "snappy" then
        (Status.ok, { qo with compression_codec := THdfsCompression.SNAPPY })
      else if iequals value "snappy_blocked" then
        (Status.ok, { qo with compression_codec := THdfsCompression.SNAPPY_BLOCKED })
      else (Status.err ("Invalid compression codec: " ++ value), qo)
    | .HBASE_CACHING => (Status.ok, { qo with hbase_caching := atoi value })
    | .HBASE_CACHE_BLOCKS =>
      (Status.ok, { qo with hbase_cache_blocks := boolVal value })
    | .PARQUET_FILE_SIZE =>
      match parseMemValue value "parquet file size" with
      | (Status.ok, v) => (Status.ok, { qo with parquet_file_size := v })
      | (e, _) => (e, qo)
    | .EXPLAIN_LEVEL =>
      if iequals value "minimal" || iequals value "0" then
        (Status.ok, { qo with explain_level := TExplainLevel.MINIMAL })
      else if iequals value "standard" || iequals value "1" then
        (Status.ok, { qo with explain_level := TExplainLevel.STANDARD })
      else if iequals value "extended" || iequals value "2" then
        (Status.ok, { qo with explain_level := TExplainLevel.EXTENDED })
      else if iequals value "verbose" || iequals value "3" then
        (Status.ok, { qo with explain_level := TExplainLevel.VERBOSE })
      else (Status.err ("Invalid explain level: " ++ value), qo)
    | .SYNC_DDL => (Status.ok, { qo with sync_ddl := boolVal value })
    | .REQUEST_POOL => (Status.ok, { qo with request_pool := value })
    | .V_CPU_CORES => (Status.ok, { qo with v_cpu_cores := atoi value })
    | .RESERVATION_REQUEST_TIMEOUT =>
      (Status.ok, { qo with reservation_request_timeout := atoi value })
    | .DISABLE_CACHED_READS =>
      (Status.ok, { qo with disable_cached_reads := boolVal value })
    | .DISABLE_OUTERMOST_TOPN =>
      (Status.ok, { qo with disable_outermost_topn := boolVal value })
    | .RM_INITIAL_MEM =>
      match parseMemValue value "RM memory limit" with
      | (Status.ok, v) => (Status.ok, { qo with rm_initial_mem := v })
      | (e, _) => (e, qo)
    | .QUERY_TIMEOUT_S => (Status.ok, { qo with query_timeout_s := atoi value })
    | .MAX_BLOCK_MGR_MEMORY =>
      match parseMemValue value "block mgr memory limit" with
      | (Status.ok, v) => (Status.ok, { qo with max_block_mgr_memory := v })
      | (e, _) => (e, qo)

/-- Decimal digit characters. -/
def digitChar (d : Nat) : Char :=
  if d = 0 then '0'
  else if d = 1 then '1'
  else if d = 2 then '2'
  else if d = 3 then '3'
  else if d = 4 then '4'
  else if d = 5 then '5'
  else if d = 6 then '6'
  else if d = 7 then '7'
  else if d = 8 then '8'
  else '9'

/-- Fuel-bounded digit accumulation: `fuel ≥` the digit count makes it total. -/
def natDecimalAux : Nat → Nat → List Char
  | 0, _ => []
  | f + 1, n =>
    if n < 10 then [digitChar n]
    else natDecimalAux f (n / 10) ++ [digitChar (n % 10)]

/-- Decimal rendering of a natural (as `operator<<` prints it). -/
def natDecimal (n : Nat) : List Char := natDecimalAux (n + 1) n

/-- Decimal rendering of an integer (as `operator<<` prints it). -/
def intDecimal (i : Int) : String :=
  match i with
  | Int.ofNat n => String.mk (natDecimal n)
  | Int.negSucc n => String.mk ('-' :: natDecimal (n + 1))

/-- Stream rendering of a bool (`operator<<` prints 1 or 0). -/
def boolStr (b : Bool) : String := if b then "1" else "0"

/-- The `val` stream of the `TQueryOptionsToMap` switch: the field value of
each option rendered by `operator<<`. Thrift enums print as their numeric
ids. -/
def optionValueString (qo : TQueryOptions) : TImpalaQueryOptions → String
  | .ABORT_ON_ERROR => boolStr qo.abort_on_error
  | .MAX_ERRORS => intDecimal qo.max_errors
  | .DISABLE_CODEGEN => boolStr qo.disable_codegen
  | .BATCH_SIZE => intDecimal qo.batch_size
  | .MEM_LIMIT => intDecimal qo.mem_limit
  | .NUM_NODES => intDecimal qo.num_nodes
  | .MAX_SCAN_RANGE_LENGTH => intDecimal qo.max_scan_range_length
  | .MAX_IO_BUFFERS => intDecimal qo.max_io_buffers
  | .NUM_SCANNER_THREADS => intDecimal qo.num_scanner_threads
  | .ALLOW_UNSUPPORTED_FORMATS => boolStr qo.allow_unsupported_formats
  | .DEFAULT_ORDER_BY_LIMIT => intDecimal qo.default_order_by_limit
  | .DEBUG_ACTION => qo.debug_action
  | .ABORT_ON_DEFAULT_LIMIT_EXCEEDED => boolStr qo.abort_on_default_limit_exceeded
  | .COMPRESSION_CODEC => intDecimal qo.compression_codec.toInt
  | .HBASE_CACHING => intDecimal qo.hbase_caching
  | .HBASE_CACHE_BLOCKS => boolStr qo.hbase_cache_blocks
  | .PARQUET_FILE_SIZE => intDecimal qo.parquet_file_size
  | .EXPLAIN_LEVEL => intDecimal qo.explain_level.toInt
  | .SYNC_DDL => boolStr qo.sync_ddl
  | .REQUEST_POOL => qo.request_pool
  | .V_CPU_CORES => intDecimal qo.v_cpu_cores
  | .RESERVATION_REQUEST_TIMEOUT => intDecimal qo.reservation_request_timeout
  | .DISABLE_CACHED_READS => boolStr qo.disable_cached_reads
  | .DISABLE_OUTERMOST_TOPN => boolStr qo.disable_outermost_topn
  | .RM_INITIAL_MEM => intDecimal qo.rm_initial_mem
  | .QUERY_TIMEOUT_S => intDecimal qo.query_timeout_s
  | .MAX_BLOCK_MGR_MEMORY => intDecimal qo.max_block_mgr_memory

/-- Embedding of `ImpalaServer::TQueryOptionsToMap`: one `name = value`
pair per enumerated option. -/
def tQueryOptionsToMap (qo : TQueryOptions) : List (String × String) :=
  allQueryOptions.map (fun o => (o.name, optionValueString qo o))

/-- The `k=v` tokens of the serialised option map. -/
def queryOptionTokens (qo : TQueryOptions) : List String :=
  (tQueryOptionsToMap qo).map (fun p => p.1 ++ "=" ++ p.2)

/-- Join string fragments with commas: the `k=v,k=v` form
(`--default_query_options` style) that `ParseQueryOptions` consumes. -/
def joinComma : List String → String
  | [] => ""
  | [s] => s
  | s :: rest => s ++ "," ++ joinComma rest

/-- Serialise the whole option map to the comma-joined string. -/
def queryOptionsString (qo : TQueryOptions) : String :=
  joinComma (queryOptionTokens qo)

/-- The `BOOST_FOREACH` body of `ParseQueryOptions` over the comma-split
tokens: trim, skip empties, split at `=`, reject malformed pairs, else
apply `SetQueryOptions`, stopping at the first error
(`RETURN_IF_ERROR`). -/
def parseKvList : List String → TQueryOptions → Status × TQueryOptions
  | [], qo => (Status.ok, qo)
  | kv :: rest, qo =>
    let kvString := trimStr kv
    if kvString.length = 0 then parseKvList rest qo
    else
      let keyValue := splitCompress '=' kvString
      if keyValue.length ≠ 2 then
        (Status.err ("Ignoring invalid configuration option " ++ kvString
          ++ ": bad format (expected key=value)"), qo)
      else
        match setQueryOptions (keyValue.headD "") (keyValue.getD 1 "") qo with
        | (Status.ok, qo2) => parseKvList rest qo2
        | (e, qo2) => (e, qo2)

/-- Embedding of `ImpalaServer::ParseQueryOptions`. -/
def parseQueryOptions (options : String) (qo : TQueryOptions) :
    Status × TQueryOptions :=
  if options.length = 0 then (Status.ok, qo)
  else parseKvList (splitCompress ',' options) qo

/-! ## Round-trip analysis for C9 -/

theorem toList_append (a b : String) : (a ++ b).toList = a.toList ++ b.toList :=
  String.data_append a b

theorem splitCharList_ne_nil (sep : Char) : ∀ l : List Char, splitCharList sep l ≠ [] := by
  intro l
  cases l with
  | nil => simp [splitCharList]
  | cons c cs =>
    simp only [splitCharList]
    rcases splitCharList sep cs with _ | ⟨t, ts⟩
    · simp
    · by_cases h : c = sep <;> simp [h]

theorem splitCharList_sep_cons (sep : Char) (r : List Char) :
    splitCharList sep (sep :: r) = [] :: splitCharList sep r := by
  simp only [splitCharList]
  rcases hs : splitCharList sep r with _ | ⟨t, ts⟩
  · exact absurd hs (splitCharList_ne_nil sep r)
  · simp

theorem splitCharList_append (sep : Char) :
    ∀ t : List Char, (∀ c ∈ t, ¬ c = sep) →
      ∀ r, splitCharList sep (t ++ sep :: r) = t :: splitCharList sep r := by
  intro t
  induction t with
  | nil =>
    intro _ r
    exact splitCharList_sep_cons sep r
  | cons c t ih =>
    intro hc r
    have hcs : ¬ c = sep := hc c (List.mem_cons_self _ _)
    simp only [List.cons_append, splitCharList, List.append_eq]
    rw [ih (fun x hx => hc x (List.mem_cons_of_mem _ hx)) r]
    simp [hcs]

theorem splitCharList_no_sep (sep : Char) :
    ∀ t : List Char, (∀ c ∈ t, ¬ c = sep) → splitCharList sep t = [t] := by
  intro t
  induction t with
  | nil => intro _; rfl
  | cons c t ih =>
    intro hc
    have hcs : ¬ c = sep := hc c (List.mem_cons_self _ _)
    simp only [splitCharList]
    rw [ih (fun x hx => hc x (List.mem_cons_of_mem _ hx))]
    simp [hcs]

theorem splitCharList_joinComma :
    ∀ toks : List String, toks ≠ [] →
      (∀ t ∈ toks, ∀ c ∈ t.toList, ¬ c = ',') →
      splitCharList ',' (joinComma toks).toList = toks.map String.toList := by
  intro toks
  induction toks with
  | nil => intro h; exact absurd rfl h
  | cons t rest ih =>
    intro _ hprop
    cases rest with
    | nil =>
      show splitCharList ',' t.toList = [t.toList]
      exact splitCharList_no_sep ',' t.toList (hprop t (List.mem_cons_self _ _))
    | cons t2 rest2 =>
      have hj : (joinComma (t :: t2 :: rest2)).toList =
          t.toList ++ ',' :: (joinComma (t2 :: rest2)).toList := by
        show ((t ++ ",") ++ joinComma (t2 :: rest2)).toList = _
        rw [toList_append, toList_append]
        simp
      rw [hj, splitCharList_append ',' t.toList (hprop t (List.mem_cons_self _ _)),
        ih (by simp) (fun x hx c hc => hprop x (List.mem_cons_of_mem _ hx) c hc)]
      rfl

theorem dropInteriorEmpty_id :
    ∀ L : List (List Char), (∀ l ∈ L, l ≠ []) → dropInteriorEmpty L = L := by
  intro L
  induction L with
  | nil => intro _; rfl
  | cons t rest ih =>
    intro hne
    cases rest with
    | nil => rfl
    | cons t2 rest2 =>
      have ht : ¬ t.isEmpty = true := by
        simpa using hne t (List.mem_cons_self _ _)
      simp only [dropInteriorEmpty, if_neg ht]
      rw [ih (fun x hx => hne x (List.mem_cons_of_mem _ hx))]

theorem splitCompress_joinComma (toks : List String) (hne : toks ≠ [])
    (hprop : ∀ t ∈ toks, t.toList ≠ [] ∧ ∀ c ∈ t.toList, ¬ c = ',') :
    splitCompress ',' (joinComma toks) = toks := by
  unfold splitCompress
  rw [splitCharList_joinComma toks hne (fun t ht => (hprop t ht).2)]
  cases toks with
  | nil => exact absurd rfl hne
  | cons t rest =>
    simp only [List.map_cons]
    rw [dropInteriorEmpty_id (rest.map String.toList)
      (by
        intro l hl
        rcases List.mem_map.mp hl with ⟨s, hs, rfl⟩
        exact (hprop s (List.mem_cons_of_mem _ hs)).1)]
    rw [List.map_map]
    have hcomp : (String.mk ∘ String.toList) = id := funext fun _ => rfl
    rw [hcomp, List.map_id]
    rfl

theorem parseKvList_fails_of_mem (tok : String)
    (h1 : ¬ (trimStr tok).length = 0)
    (h2 : ∀ b : TQueryOptions,
      ¬ (splitCompress '=' (trimStr tok)).length = 2 ∨
      (setQueryOptions ((splitCompress '=' (trimStr tok)).headD "")
        ((splitCompress '=' (trimStr tok)).getD 1 "") b).1.isOk = false) :
    ∀ l : List String, tok ∈ l → ∀ qo : TQueryOptions,
      (parseKvList l qo).1.isOk = false := by
  intro l
  induction l with
  | nil => intro h; exact absurd h (List.not_mem_nil tok)
  | cons hd tl ih =>
    intro hmem qo
    rw [parseKvList]
    by_cases he : (trimStr hd).length = 0
    · rw [if_pos he]
      rcases List.mem_cons.mp hmem with rfl | hmem2
      · exact absurd he h1
      · exact ih hmem2 qo
    · rw [if_neg he]
      by_cases hkv : ¬ (splitCompress '=' (trimStr hd)).length = 2
      · rw [if_pos hkv]
        rfl
      · rw [if_neg hkv]
        rcases hset : setQueryOptions ((splitCompress '=' (trimStr hd)).headD "")
            ((splitCompress '=' (trimStr hd)).getD 1 "") qo with ⟨s, qo2⟩
        rcases s with _ | ⟨c, m⟩
        · rcases List.mem_cons.mp hmem with rfl | hmem2
          · rcases h2 qo with hbad | hbad
            · exact absurd hbad (by simpa using hkv)
            · rw [hset] at hbad
              simp [Status.isOk] at hbad
          · exact ih hmem2 qo2
        · rfl

theorem digitChar_benign (d : Nat) :
    ¬ digitChar d = ',' ∧ (digitChar d).isWhitespace = false := by
  unfold digitChar
  repeat' split
  all_goals exact ⟨by decide, by decide⟩

theorem natDecimalAux_benign :
    ∀ f n : Nat, ∀ c ∈ natDecimalAux f n, ¬ c = ',' ∧ c.isWhitespace = false := by
  intro f
  induction f with
  | zero => intro n c hc; simp [natDecimalAux] at hc
  | succ f ih =>
    intro n c hc
    rw [natDecimalAux] at hc
    by_cases h : n < 10
    · rw [if_pos h] at hc
      rcases List.mem_singleton.mp hc with rfl
      exact digitChar_benign n
    · rw [if_neg h] at hc
      rcases List.mem_append.mp hc with hc | hc
      · exact ih (n / 10) c hc
      · rcases List.mem_singleton.mp hc with rfl
        exact digitChar_benign (n % 10)

theorem natDecimal_benign :
    ∀ n : Nat, ∀ c ∈ natDecimal n, ¬ c = ',' ∧ c.isWhitespace = false := by
  intro n
  exact natDecimalAux_benign (n + 1) n

theorem intDecimal_benign (i : Int) :
    ∀ c ∈ (intDecimal i).toList, ¬ c = ',' ∧ c.isWhitespace = false := by
  intro c hc
  rcases i with n | n
  · exact natDecimal_benign n c hc
  · rcases List.mem_cons.mp hc with rfl | hc
    · exact ⟨by decide, by decide⟩
    · exact natDecimal_benign (n + 1) c hc

theorem boolStr_benign (b : Bool) :
    ∀ c ∈ (boolStr b).toList, ¬ c = ',' ∧ c.isWhitespace = false := by
  cases b <;> decide

theorem mem_token_cases {a v : String} {c : Char}
    (hc : c ∈ (a ++ "=" ++ v).toList) : c ∈ a.toList ∨ c = '=' ∨ c ∈ v.toList := by
  rw [toList_append, toList_append] at hc
  rcases List.mem_append.mp hc with h | h
  · rcases List.mem_append.mp h with h | h
    · left; exact h
    · right; left; simpa using h
  · right; right; exact h

theorem name_benign (o : TImpalaQueryOptions) :
    ∀ c ∈ o.name.toList, ¬ c = ',' ∧ c.isWhitespace = false := by
  cases o <;> decide

theorem optionValueString_benign (qo : TQueryOptions)
    (hdbg : ∀ c ∈ qo.debug_action.toList, ¬ c = ',')
    (hpool : ∀ c ∈ qo.request_pool.toList, ¬ c = ',') (o : TImpalaQueryOptions) :
    ∀ c ∈ (optionValueString qo o).toList, ¬ c = ',' := by
  cases o <;> intro c hc <;>
    first
      | exact (boolStr_benign _ c hc).1
      | exact (intDecimal_benign _ c hc).1
      | exact hdbg c hc
      | exact hpool c hc

theorem queryOptionTokens_props (qo : TQueryOptions)
    (hdbg : ∀ c ∈ qo.debug_action.toList, ¬ c = ',')
    (hpool : ∀ c ∈ qo.request_pool.toList, ¬ c = ',') :
    ∀ t ∈ queryOptionTokens qo, t.toList ≠ [] ∧ ∀ c ∈ t.toList, ¬ c = ',' := by
  intro t ht
  unfold queryOptionTokens tQueryOptionsToMap at ht
  rw [List.map_map] at ht
  rcases List.mem_map.mp ht with ⟨o, ho, rfl⟩
  dsimp only [Function.comp]
  constructor
  · rw [toList_append, toList_append]
    simp
  · intro c hc
    rcases mem_token_cases hc with h | h | h
    · exact (name_benign o c h).1
    · rw [h]; decide
    · exact optionValueString_benign qo hdbg hpool o c h

theorem compression_token_mem (qo : TQueryOptions) :
    (TImpalaQueryOptions.COMPRESSION_CODEC.name ++ "=" ++
      optionValueString qo TImpalaQueryOptions.COMPRESSION_CODEC) ∈
      queryOptionTokens qo := by
  unfold queryOptionTokens tQueryOptionsToMap
  rw [List.map_map]
  exact List.mem_map.mpr ⟨TImpalaQueryOptions.COMPRESSION_CODEC, by decide, rfl⟩

theorem joinComma_length_ne_zero (t : String) (rest : List String)
    (ht : ¬ t.length = 0) : ¬ (joinComma (t :: rest)).length = 0 := by
  cases rest with
  | nil => simpa [joinComma] using ht
  | cons r rs =>
    show ¬ ((t ++ ",") ++ joinComma (r :: rs)).length = 0
    rw [String.length_append, String.length_append,
      show ("," : String).length = 1 from rfl]
    omega

/-- A concrete options value for the C9 counterexample and witness. -/
def qoC9 : TQueryOptions :=
  ⟨false, 0, false, 0, 0, 0, 0, 0, 0, false, -1, "", false, THdfsCompression.SNAPPY,
    0, false, 0, TExplainLevel.MINIMAL, false, "", 0, 0, false, false, 0, 0, 0⟩

set_option maxRecDepth 20000 in
/-- C9 counterexample: serialising a concrete options value with
`TQueryOptionsToMap` and re-parsing the joined `k=v,...` string yields the
error `"Invalid compression codec: 5"` rather than OK: codecs serialise as
their numeric id, which `SetQueryOptions` does not accept. -/
theorem parseQueryOptions_counterexample :
    (parseQueryOptions (queryOptionsString qoC9) qoC9).1 =
      Status.err "Invalid compression codec: 5" ∧
    (parseQueryOptions (queryOptionsString qoC9) qoC9).1.isOk = false := by
  refine ⟨by decide, by decide⟩

/-- C9 amended: the round trip fails on the entire enumerated option set:
for every `TQueryOptions` value whose string-valued options
(`debug_action`, `request_pool`) are comma-free, re-parsing the serialised
string returns an error, never OK, because the `COMPRESSION_CODEC` entry
serialises to the codec's decimal id and `SetQueryOptions` accepts only
the codec names; so `ParseQueryOptions(ToString(opts)) == opts` holds for
no opts. -/
theorem parseQueryOptions_roundtrip_fails (qo base : TQueryOptions)
    (hdbg : ∀ c ∈ qo.debug_action.toList, ¬ c = ',')
    (hpool : ∀ c ∈ qo.request_pool.toList, ¬ c = ',') :
    (parseQueryOptions (queryOptionsString qo) base).1.isOk = false ∧
    ∀ b : TQueryOptions,
      (setQueryOptions "COMPRESSION_CODEC"
        (optionValueString qo TImpalaQueryOptions.COMPRESSION_CODEC) b).1.isOk
        = false := by
  constructor
  · have htok := queryOptionTokens_props qo hdbg hpool
    have hne : queryOptionTokens qo ≠ [] := by
      unfold queryOptionTokens tQueryOptionsToMap allQueryOptions
      simp
    have hsplit : splitCompress ',' (queryOptionsString qo) = queryOptionTokens qo :=
      splitCompress_joinComma _ hne htok
    have hlen : ¬ (queryOptionsString qo).length = 0 := by
      have hq : queryOptionsString qo =
          joinComma ((TImpalaQueryOptions.ABORT_ON_ERROR.name ++ "=" ++
            optionValueString qo TImpalaQueryOptions.ABORT_ON_ERROR) ::
            (queryOptionTokens qo).tail) := rfl
      rw [hq]
      refine joinComma_length_ne_zero _ _ ?_
      rw [String.length_append, String.length_append,
        show (TImpalaQueryOptions.ABORT_ON_ERROR.name).length = 14 from rfl,
        show ("=" : String).length = 1 from rfl]
      omega
    unfold parseQueryOptions
    rw [if_neg hlen, hsplit]
    refine parseKvList_fails_of_mem
      (TImpalaQueryOptions.COMPRESSION_CODEC.name ++ "=" ++
        optionValueString qo TImpalaQueryOptions.COMPRESSION_CODEC) ?_ ?_ _
      (compression_token_mem qo) base
    · rw [show optionValueString qo TImpalaQueryOptions.COMPRESSION_CODEC =
          intDecimal qo.compression_codec.toInt from rfl]
      cases qo.compression_codec <;> decide
    · intro b
      right
      rw [show optionValueString qo TImpalaQueryOptions.COMPRESSION_CODEC =
          intDecimal qo.compression_codec.toInt from rfl]
      cases qo.compression_codec <;> rfl
  · intro b
    rw [show optionValueString qo TImpalaQueryOptions.COMPRESSION_CODEC =
        intDecimal qo.compression_codec.toInt from rfl]
    cases qo.compression_codec <;> rfl

theorem parseQueryOptions_roundtrip_fails_witness :
    (parseQueryOptions (queryOptionsString qoC9) qoC9).1.isOk = false ∧
    ∀ b : TQueryOptions,
      (setQueryOptions "COMPRESSION_CODEC"
        (optionValueString qoC9 TImpalaQueryOptions.COMPRESSION_CODEC) b).1.isOk
        = false :=
  parseQueryOptions_roundtrip_fails qoC9 qoC9 (by decide) (by decide)

end Impala
